import Mathlib

/-!
# go-batch-iterator: a shallow embedding of `Iterator` and its adapters

The Go package `batchiterator` (files `iterator.go`, `option.go`) is embedded as
pure Lean functions with explicit state passing.

* A Go `error` is a `GoError`; an `error` that may be `nil` is `Option GoError`.
* A Go slice `[]T` is a `List T`; the `nil` slice and the empty slice are both `[]`
  (the code only ever asks for `len`).
* A pointer `*T` handed out by `Value` is `Option T`: `none` is the `nil` pointer,
  `some v` is a pointer to an element holding `v`.
* A `NextBatchFunction` is a Go closure and may carry mutable state (a page
  cursor, a call counter).  That state is the explicit world `σ`, threaded through
  every invocation.  The context argument has the abstract type `κ`.
* `Next` calls itself when a fetch delivers an empty batch with
  `hasMoreItems = true`; that recursion need not end, so the embedding carries a
  recursion budget (`fuel`) and answers `none` when the budget is used up.
* A fetch closure reads and writes its own state only; it does not reach back into
  the iterator that is calling it.
* Every outcome carries the ghost field `fetched`: the results of the fetch
  invocations performed, oldest first.  It is bookkeeping only; no branch of the
  embedded code reads it.
-/

namespace BatchIterator

/-! ## Errors -/

/-- Go `error` values.  `EOF` is the value `io.EOF`, which the code compares
against by identity; `errorString msg` is any other error value, for instance
the result of `errors.New(msg)`. -/
inductive GoError where
  | EOF
  | errorString (msg : String)
  deriving DecidableEq, Repr

/-- Method `Error()` of a Go error: its message (`io.EOF` is `errors.New("EOF")`). -/
def GoError.message : GoError → String
  | .EOF => "EOF"
  | .errorString msg => msg

/-- Go `errors.New`: a fresh error value, never identical to `io.EOF`. -/
def errorsNew (msg : String) : GoError := .errorString msg

/-! ## The data model (`iterator.go`) -/

/-- The triple `(items, hasMoreItems, err)` returned by a `NextBatchFunction`. -/
structure FetchResult (T : Type) where
  items : List T
  hasMoreItems : Bool
  err : Option GoError
  deriving DecidableEq, Repr

/-- Type `NextBatchFunction[T]`: `func(ctx) (items []T, hasMoreItems bool, err error)`,
with the closure state `σ` made explicit. -/
abbrev NextBatchFunction (T σ κ : Type) : Type := κ → σ → FetchResult T × σ

/-- Struct `Iterator[T]`.  `NextBatchFunc = none` is the `nil` function. -/
structure Iterator (T σ κ : Type) where
  NextBatchFunc : Option (NextBatchFunction T σ κ)
  batch : List T
  lastError : Option GoError
  isLastBatch : Bool

/-- The zero value `Iterator[T]{}` with field `NextBatchFunc` set to `f`, as in
`Iterator[T]{NextBatchFunc: f}`. -/
def Iterator.new {T σ κ : Type} (f : Option (NextBatchFunction T σ κ)) : Iterator T σ κ :=
  { NextBatchFunc := f, batch := [], lastError := none, isLastBatch := false }

/-- What one call of `Next` leaves behind: the returned boolean `ok`, the iterator
after the call, the closure state after the call, and (ghost) the results of the
fetch invocations this call made. -/
structure NextOutcome (T σ κ : Type) where
  ok : Bool
  iter : Iterator T σ κ
  world : σ
  fetched : List (FetchResult T)

/-- Method `Iterator.Next`.  `fuel` bounds the depth of the self-call in the
empty-batch branch; `none` means the budget ran out. -/
def Next {T σ κ : Type} (fuel : Nat) (ctx : κ) (iter : Iterator T σ κ) (w : σ) :
    Option (NextOutcome T σ κ) :=
  match iter.NextBatchFunc with
  | none =>
    some { ok := false
           iter := { iter with
             batch := []
             lastError := some (errorsNew "iterator has no next batch function") }
           world := w
           fetched := [] }
  | some f =>
    if iter.lastError ≠ none then
      some { ok := false, iter := { iter with batch := [] }, world := w, fetched := [] }
    else if iter.batch.length > 1 then
      some { ok := true, iter := { iter with batch := iter.batch.drop 1 }, world := w,
             fetched := [] }
    else if iter.isLastBatch then
      some { ok := false, iter := { iter with batch := [] }, world := w, fetched := [] }
    else
      let r := (f ctx w).1
      let w1 := (f ctx w).2
      let iter1 : Iterator T σ κ :=
        { iter with batch := r.items, lastError := r.err, isLastBatch := !r.hasMoreItems }
      if iter1.lastError ≠ none then
        some { ok := false, iter := { iter1 with batch := [] }, world := w1, fetched := [r] }
      else if iter1.batch.length = 0 then
        if !iter1.isLastBatch then
          match fuel with
          | 0 => none
          | fuel + 1 =>
            match Next fuel ctx iter1 w1 with
            | none => none
            | some o => some { o with fetched := r :: o.fetched }
        else
          some { ok := false
                 iter := { iter1 with batch := [], lastError := some GoError.EOF }
                 world := w1
                 fetched := [r] }
      else
        some { ok := true, iter := iter1, world := w1, fetched := [r] }

/-- Method `Iterator.Value`: a pointer to the front of the batch, `nil` when the
batch is empty. -/
def Value {T σ κ : Type} (iter : Iterator T σ κ) : Option T :=
  if iter.batch.length = 0 then none else iter.batch.head?

/-- Method `Iterator.Error`: the latched error, with `io.EOF` reported as `nil`. -/
def Error {T σ κ : Type} (iter : Iterator T σ κ) : Option GoError :=
  if iter.lastError = some GoError.EOF then none else iter.lastError

/-! ## Adapters (`option.go`) -/

/-- Function `StaticSlice`: the closure returns `s, false, nil` and has no state. -/
def StaticSlice {T σ κ : Type} (s : List T) : NextBatchFunction T σ κ :=
  fun _ctx w => ({ items := s, hasMoreItems := false, err := none }, w)

/-- Type `*rate.Limiter` of the library `golang.org/x/time/rate`, which is not
part of this repository.  `RateLimit` uses nothing of it but the method
`Wait(ctx) error`, so a limiter is that method, taken as a parameter: it may
change the state it lives in (tokens, clock) and answers `nil` or an error. -/
structure Limiter (σ κ : Type) where
  Wait : κ → σ → Option GoError × σ

/-- What the closure returned by `RateLimit` does besides computing its result
(ghost): it calls `limiter.Wait(ctx)`, it calls `nextBatchFunction(ctx)`. -/
inductive RateEvent (κ : Type) where
  | wait (ctx : κ)
  | invoke (ctx : κ)

/-- The closure returned by `RateLimit(limiter, nextBatchFunction)`, together with
the ghost list of the calls it makes, in order.  `limiter = none` is the `nil`
pointer. -/
def RateLimitTraced {T σ κ : Type} (limiter : Option (Limiter σ κ))
    (nextBatchFunction : NextBatchFunction T σ κ) (ctx : κ) (w : σ) :
    (FetchResult T × σ) × List (RateEvent κ) :=
  match limiter with
  | none =>
    (({ items := [], hasMoreItems := false, err := some (errorsNew "limiter cannot be nil") },
      w), [])
  | some l =>
    match l.Wait ctx w with
    | (some err, w1) =>
      (({ items := [], hasMoreItems := false, err := some err }, w1), [RateEvent.wait ctx])
    | (none, w1) => (nextBatchFunction ctx w1, [RateEvent.wait ctx, RateEvent.invoke ctx])

/-- Function `RateLimit`: the closure of `RateLimitTraced` without the ghost list. -/
def RateLimit {T σ κ : Type} (limiter : Option (Limiter σ κ))
    (nextBatchFunction : NextBatchFunction T σ κ) : NextBatchFunction T σ κ :=
  fun ctx w => (RateLimitTraced limiter nextBatchFunction ctx w).1

/-- How a run of `getAllValuesFromIter` ends: it returns `(items, err)` (together
with the iterator and closure state it leaves and, ghost, the fetch results seen),
or it dereferences the `nil` pointer in `*iter.Value()`, or the budget runs out. -/
inductive DrainResult (T σ κ : Type) where
  | returned (items : List T) (err : Option GoError) (iter : Iterator T σ κ) (world : σ)
      (fetched : List (FetchResult T))
  | nilDereference
  | outOfFuel

/-- The loop of `getAllValuesFromIter`:
`for iter.Next(ctx) { items = append(items, *iter.Value()) }; return items, iter.Error()`.
Each iteration spends one unit of `fuel`; the rest is the budget of its `Next`. -/
def drainLoop {T σ κ : Type} (ctx : κ) :
    Nat → Iterator T σ κ → σ → List T → List (FetchResult T) → DrainResult T σ κ
  | 0, _, _, _, _ => .outOfFuel
  | fuel + 1, iter, w, items, log =>
    match Next fuel ctx iter w with
    | none => .outOfFuel
    | some o =>
      if o.ok then
        match Value o.iter with
        | none => .nilDereference
        | some v => drainLoop ctx fuel o.iter o.world (items ++ [v]) (log ++ o.fetched)
      else
        .returned items (Error o.iter) o.iter o.world (log ++ o.fetched)

/-- Test helper `getAllValuesFromIter`, started with `var items []T`. -/
def getAllValuesFromIter {T σ κ : Type} (fuel : Nat) (ctx : κ) (iter : Iterator T σ κ)
    (w : σ) : DrainResult T σ κ :=
  drainLoop ctx fuel iter w [] []

/-- A fetch closure that replays a script, as the closures of `TestWithNextBatchFunc`
and `TestWithNextBatchFuncAndEmptyResponse` do with their `idx` counter: the closure
state is the part of the script not yet replayed, and once the script is used up
every call answers `nil, false, nil` (the `default:` case). -/
def scriptFunc {T κ : Type} : NextBatchFunction T (List (FetchResult T)) κ :=
  fun _ctx w =>
    match w with
    | [] => ({ items := [], hasMoreItems := false, err := none }, [])
    | r :: rest => (r, rest)

/-- One thing a caller does with an iterator it owns: call `Next(ctx)`, or assign
the exported field `NextBatchFunc` (`none` assigns `nil`). -/
inductive Call (T σ κ : Type) where
  | next (ctx : κ)
  | setNextBatchFunc (f : Option (NextBatchFunction T σ κ))

/-- Whether a call leaves a fetch function configured: everything but the
assignment `iter.NextBatchFunc = nil`. -/
def Call.keepsFunc {T σ κ : Type} : Call T σ κ → Bool
  | .setNextBatchFunc none => false
  | _ => true

/-- Whether a call is a call of `Next`. -/
def Call.isNext {T σ κ : Type} : Call T σ κ → Bool
  | .next _ => true
  | _ => false

/-- What a sequence of calls leaves behind: the values returned by its `Next`
calls in order, the iterator, the closure state, and (ghost) the results of all
fetch invocations made. -/
structure RunOutcome (T σ κ : Type) where
  returns : List Bool
  iter : Iterator T σ κ
  world : σ
  fetched : List (FetchResult T)

/-- A caller performing the calls `cs` one after the other; every `Next` gets the
budget `fuel`. -/
def runCalls {T σ κ : Type} (fuel : Nat) :
    List (Call T σ κ) → Iterator T σ κ → σ → Option (RunOutcome T σ κ)
  | [], iter, w => some { returns := [], iter := iter, world := w, fetched := [] }
  | .setNextBatchFunc f :: cs, iter, w => runCalls fuel cs { iter with NextBatchFunc := f } w
  | .next ctx :: cs, iter, w =>
    match Next fuel ctx iter w with
    | none => none
    | some o =>
      match runCalls fuel cs o.iter o.world with
      | none => none
      | some r =>
        some { returns := o.ok :: r.returns, iter := r.iter, world := r.world,
               fetched := o.fetched ++ r.fetched }

/-- A fetch closure that always fails, as the closures of
`TestErrorDuringNextBatchFunc` do: it returns `nil, more, e` and has no state. -/
def errorFunc {T σ κ : Type} (more : Bool) (e : GoError) : NextBatchFunction T σ κ :=
  fun _ctx w => ({ items := [], hasMoreItems := more, err := some e }, w)

/-- The two observer methods of `iterator.go`. -/
inductive Observer where
  | Value
  | Error

/-- What an observer method returns: the pointer of `Value` or the error of
`Error`. -/
inductive Observed (T : Type) where
  | value (p : Option T)
  | error (e : Option GoError)

/-- Methods `Value` and `Error` as calls on the caller's iterator.  They have
pointer receivers, so the embedding hands back the iterator and the closure state
after the call and (ghost) the fetch results seen; neither body assigns a field or
calls `NextBatchFunc`. -/
def Observer.call {T σ κ : Type} :
    Observer → Iterator T σ κ → σ → Observed T × Iterator T σ κ × σ × List (FetchResult T)
  | .Value, iter, w => (Observed.value (BatchIterator.Value iter), iter, w, [])
  | .Error, iter, w => (Observed.error (BatchIterator.Error iter), iter, w, [])

/-- A caller performing the observer calls `obs` one after the other. -/
def runObservers {T σ κ : Type} :
    List Observer → Iterator T σ κ → σ →
      List (Observed T) × Iterator T σ κ × σ × List (FetchResult T)
  | [], iter, w => ([], iter, w, [])
  | ob :: obs, iter, w =>
    let r := ob.call iter w
    let rs := runObservers obs r.2.1 r.2.2.1
    (r.1 :: rs.1, rs.2.1, rs.2.2.1, r.2.2.2 ++ rs.2.2.2)

/-! ## Vocabulary for statements -/

/-- Closure state after `n` successive invocations of the fetch function `f`,
starting from `w`. -/
def fetchWorld {T σ κ : Type} (f : NextBatchFunction T σ κ) (ctx : κ) : Nat → σ → σ
  | 0, w => w
  | n + 1, w => fetchWorld f ctx n (f ctx w).2

/-- The fetch result `nil, true, nil`: an empty batch, more may follow. -/
def emptyMore {T : Type} : FetchResult T :=
  { items := [], hasMoreItems := true, err := none }

/-- A budget that suffices to drain a script whose results `pre` all have
`hasMoreItems = true` and are followed by `last`: one unit per item, one per
result. -/
def drainFuel {T : Type} (pre : List (FetchResult T)) (last : FetchResult T) : Nat :=
  (pre.map (fun r => r.items.length + 1)).sum + last.items.length + 1

/-! ## Fixtures taken from `iterator_test.go` -/

/-- The iterator of `TestErrorDuringNextBatchFunc`, case "with more data". -/
def iterWithMoreData : Iterator String Unit Unit :=
  Iterator.new (some (errorFunc true (errorsNew "some error")))

/-- State of `iterWithMoreData` after its first `Next`. -/
def iterWithMoreDataFailed : Iterator String Unit Unit :=
  { NextBatchFunc := some (errorFunc true (errorsNew "some error")), batch := [],
    lastError := some (errorsNew "some error"), isLastBatch := false }

/-- The iterator of `FuzzOverflow`. -/
def iterABC : Iterator String Unit Unit :=
  Iterator.new (some (StaticSlice ["A", "B", "C"]))

/-- State of `iterABC` while its `k`-th item (from 0) is current. -/
def iterABCAt (k : Nat) : Iterator String Unit Unit :=
  { NextBatchFunc := some (StaticSlice ["A", "B", "C"]), batch := ["A", "B", "C"].drop k,
    lastError := none, isLastBatch := true }

/-- A caller that calls `Next`, assigns another fetch function, and calls `Next`
twice more. -/
def callsReassign : List (Call String Unit Unit) :=
  [Call.next (), Call.setNextBatchFunc (some (StaticSlice ["Z"])), Call.next (), Call.next ()]

/-- A caller that calls `Next`, assigns `nil` to `NextBatchFunc` (as
`TestNextBatchFunctionChangedInFlight` does), assigns a fetch function again, and
calls `Next` twice more. -/
def callsUnsetReassign : List (Call String Unit Unit) :=
  [Call.next (), Call.setNextBatchFunc none, Call.next (),
   Call.setNextBatchFunc (some (StaticSlice ["Z"])), Call.next ()]

/-- The fetch results of `TestWithNextBatchFuncAndEmptyResponse` that announce more
items: calls 1 to 3. -/
def scriptEmptyResponse : List (FetchResult String) :=
  [{ items := ["A", "B", "C"], hasMoreItems := true, err := none },
   { items := [], hasMoreItems := true, err := none },
   { items := ["D", "E", "F"], hasMoreItems := true, err := none }]

/-- The fetch results of `TestWithNextBatchFunc` that announce more items: calls
1 to 3. -/
def scriptThreeBatches : List (FetchResult String) :=
  [{ items := ["A", "B", "C"], hasMoreItems := true, err := none },
   { items := ["D"], hasMoreItems := true, err := none },
   { items := ["E", "F"], hasMoreItems := true, err := none }]

/-- The fetch result of the `default:` case of both tests: `nil, false, nil`. -/
def scriptDefault : FetchResult String :=
  { items := [], hasMoreItems := false, err := none }

/-- A script that answers `nil, true, nil` twice before a batch arrives. -/
def scriptTwoEmpty : List (FetchResult String) :=
  [emptyMore, emptyMore, { items := ["D", "E", "F"], hasMoreItems := true, err := none },
   scriptDefault]

/-- A limiter whose `Wait` fails, as `rate.Limiter.Wait` does when the context is
already cancelled. -/
def cancelledLimiter : Limiter Unit Unit :=
  { Wait := fun _ctx w => (some (errorsNew "context canceled"), w) }

/-- The iterator of `TestErrorDuringNextBatchFunc`, case "with more data", built
from the zero value by an assignment, followed by one `Next`. -/
def callsFailingFetch : List (Call String Unit Unit) :=
  [Call.setNextBatchFunc (some (errorFunc true (errorsNew "some error"))), Call.next ()]

section Branches

variable {T σ κ : Type}

theorem Next_nil (fuel : Nat) (ctx : κ) (iter : Iterator T σ κ) (w : σ)
    (hf : iter.NextBatchFunc = none) :
    Next fuel ctx iter w =
      some { ok := false
             iter := { iter with
               batch := []
               lastError := some (errorsNew "iterator has no next batch function") }
             world := w
             fetched := [] } := by
  unfold Next
  cases fuel <;> simp [hf]

theorem Next_latched (fuel : Nat) (ctx : κ) (iter : Iterator T σ κ) (w : σ)
    (f : NextBatchFunction T σ κ) (hf : iter.NextBatchFunc = some f)
    (he : iter.lastError ≠ none) :
    Next fuel ctx iter w =
      some { ok := false, iter := { iter with batch := [] }, world := w, fetched := [] } := by
  unfold Next
  cases fuel <;> simp [hf, he]

theorem Next_buffered (fuel : Nat) (ctx : κ) (iter : Iterator T σ κ) (w : σ)
    (f : NextBatchFunction T σ κ) (hf : iter.NextBatchFunc = some f)
    (he : iter.lastError = none) (hb : 1 < iter.batch.length) :
    Next fuel ctx iter w =
      some { ok := true, iter := { iter with batch := iter.batch.drop 1 }, world := w,
             fetched := [] } := by
  unfold Next
  cases fuel <;> simp [hf, he, hb]

theorem Next_last (fuel : Nat) (ctx : κ) (iter : Iterator T σ κ) (w : σ)
    (f : NextBatchFunction T σ κ) (hf : iter.NextBatchFunc = some f)
    (he : iter.lastError = none) (hb : iter.batch.length ≤ 1) (hl : iter.isLastBatch = true) :
    Next fuel ctx iter w =
      some { ok := false, iter := { iter with batch := [] }, world := w, fetched := [] } := by
  unfold Next
  have hb2 : ¬ 1 < iter.batch.length := by omega
  cases fuel <;> simp [hf, he, hb2, hl]

theorem Next_fetch_err (fuel : Nat) (ctx : κ) (iter : Iterator T σ κ) (w : σ)
    (f : NextBatchFunction T σ κ) (hf : iter.NextBatchFunc = some f)
    (he : iter.lastError = none) (hb : iter.batch.length ≤ 1) (hl : iter.isLastBatch = false)
    (hr : (f ctx w).1.err ≠ none) :
    Next fuel ctx iter w =
      some { ok := false
             iter := { NextBatchFunc := some f, batch := [], lastError := (f ctx w).1.err,
                       isLastBatch := !(f ctx w).1.hasMoreItems }
             world := (f ctx w).2
             fetched := [(f ctx w).1] } := by
  unfold Next
  have hb2 : ¬ 1 < iter.batch.length := by omega
  cases fuel <;> simp [hf, he, hb2, hl, hr]

theorem Next_fetch_eof (fuel : Nat) (ctx : κ) (iter : Iterator T σ κ) (w : σ)
    (f : NextBatchFunction T σ κ) (hf : iter.NextBatchFunc = some f)
    (he : iter.lastError = none) (hb : iter.batch.length ≤ 1) (hl : iter.isLastBatch = false)
    (hr : (f ctx w).1.err = none) (hi : (f ctx w).1.items = [])
    (hm : (f ctx w).1.hasMoreItems = false) :
    Next fuel ctx iter w =
      some { ok := false
             iter := { NextBatchFunc := some f, batch := [], lastError := some GoError.EOF,
                       isLastBatch := true }
             world := (f ctx w).2
             fetched := [(f ctx w).1] } := by
  unfold Next
  have hb2 : ¬ 1 < iter.batch.length := by omega
  cases fuel <;> simp [hf, he, hb2, hl, hr, hi, hm]

theorem Next_fetch_items (fuel : Nat) (ctx : κ) (iter : Iterator T σ κ) (w : σ)
    (f : NextBatchFunction T σ κ) (hf : iter.NextBatchFunc = some f)
    (he : iter.lastError = none) (hb : iter.batch.length ≤ 1) (hl : iter.isLastBatch = false)
    (hr : (f ctx w).1.err = none) (hi : (f ctx w).1.items ≠ []) :
    Next fuel ctx iter w =
      some { ok := true
             iter := { NextBatchFunc := some f, batch := (f ctx w).1.items, lastError := none,
                       isLastBatch := !(f ctx w).1.hasMoreItems }
             world := (f ctx w).2
             fetched := [(f ctx w).1] } := by
  unfold Next
  have hb2 : ¬ 1 < iter.batch.length := by omega
  cases fuel <;> simp [hf, he, hb2, hl, hr, hi]

theorem Next_fetch_retry_zero (ctx : κ) (iter : Iterator T σ κ) (w : σ)
    (f : NextBatchFunction T σ κ) (hf : iter.NextBatchFunc = some f)
    (he : iter.lastError = none) (hb : iter.batch.length ≤ 1) (hl : iter.isLastBatch = false)
    (hr : (f ctx w).1.err = none) (hi : (f ctx w).1.items = [])
    (hm : (f ctx w).1.hasMoreItems = true) :
    Next 0 ctx iter w = none := by
  unfold Next
  have hb2 : ¬ 1 < iter.batch.length := by omega
  simp [hf, he, hb2, hl, hr, hi, hm]

theorem Next_fetch_retry_succ (fuel : Nat) (ctx : κ) (iter : Iterator T σ κ) (w : σ)
    (f : NextBatchFunction T σ κ) (hf : iter.NextBatchFunc = some f)
    (he : iter.lastError = none) (hb : iter.batch.length ≤ 1) (hl : iter.isLastBatch = false)
    (hr : (f ctx w).1.err = none) (hi : (f ctx w).1.items = [])
    (hm : (f ctx w).1.hasMoreItems = true) :
    Next (fuel + 1) ctx iter w =
      (Next fuel ctx { NextBatchFunc := some f, batch := [], lastError := none,
                       isLastBatch := false } (f ctx w).2).map
        (fun o => { o with fetched := (f ctx w).1 :: o.fetched }) := by
  rw [Next]
  have hb2 : ¬ 1 < iter.batch.length := by omega
  simp [hf, he, hb2, hl, hr, hi, hm]
  split <;> simp_all

end Branches

/-! ## Properties of `Next` and its callers -/

section Proofs

variable {T σ κ : Type}

/-- Rule for reasoning about a returning call of `Next`: a property of
(budget, state before, closure state before, outcome) that holds in each branch
that returns at once, and is carried through the self-call of the empty-batch
branch, holds of every outcome. -/
theorem Next_rule (ctx : κ) (P : Nat → Iterator T σ κ → σ → NextOutcome T σ κ → Prop)
    (hnil : ∀ n iter w, iter.NextBatchFunc = none →
      P n iter w { ok := false
                   iter := { iter with
                     batch := []
                     lastError := some (errorsNew "iterator has no next batch function") }
                   world := w
                   fetched := [] })
    (hlatched : ∀ n iter w f, iter.NextBatchFunc = some f → iter.lastError ≠ none →
      P n iter w { ok := false, iter := { iter with batch := [] }, world := w, fetched := [] })
    (hbuffered : ∀ n iter w f, iter.NextBatchFunc = some f → iter.lastError = none →
      1 < iter.batch.length →
      P n iter w { ok := true, iter := { iter with batch := iter.batch.drop 1 }, world := w,
                   fetched := [] })
    (hlast : ∀ n iter w f, iter.NextBatchFunc = some f → iter.lastError = none →
      iter.batch.length ≤ 1 → iter.isLastBatch = true →
      P n iter w { ok := false, iter := { iter with batch := [] }, world := w, fetched := [] })
    (herr : ∀ n iter w f, iter.NextBatchFunc = some f → iter.lastError = none →
      iter.batch.length ≤ 1 → iter.isLastBatch = false → (f ctx w).1.err ≠ none →
      P n iter w { ok := false
                   iter := { NextBatchFunc := some f, batch := [], lastError := (f ctx w).1.err,
                             isLastBatch := !(f ctx w).1.hasMoreItems }
                   world := (f ctx w).2
                   fetched := [(f ctx w).1] })
    (heof : ∀ n iter w f, iter.NextBatchFunc = some f → iter.lastError = none →
      iter.batch.length ≤ 1 → iter.isLastBatch = false → (f ctx w).1.err = none →
      (f ctx w).1.items = [] → (f ctx w).1.hasMoreItems = false →
      P n iter w { ok := false
                   iter := { NextBatchFunc := some f, batch := [], lastError := some GoError.EOF,
                             isLastBatch := true }
                   world := (f ctx w).2
                   fetched := [(f ctx w).1] })
    (hitems : ∀ n iter w f, iter.NextBatchFunc = some f → iter.lastError = none →
      iter.batch.length ≤ 1 → iter.isLastBatch = false → (f ctx w).1.err = none →
      (f ctx w).1.items ≠ [] →
      P n iter w { ok := true
                   iter := { NextBatchFunc := some f, batch := (f ctx w).1.items,
                             lastError := none, isLastBatch := !(f ctx w).1.hasMoreItems }
                   world := (f ctx w).2
                   fetched := [(f ctx w).1] })
    (hretry : ∀ n iter w f, iter.NextBatchFunc = some f → iter.lastError = none →
      iter.batch.length ≤ 1 → iter.isLastBatch = false → (f ctx w).1.err = none →
      (f ctx w).1.items = [] → (f ctx w).1.hasMoreItems = true →
      ∀ o, P n { NextBatchFunc := some f, batch := [], lastError := none, isLastBatch := false }
             (f ctx w).2 o →
        P (n + 1) iter w { o with fetched := (f ctx w).1 :: o.fetched })
    (fuel : Nat) (iter : Iterator T σ κ) (w : σ) (o : NextOutcome T σ κ)
    (h : Next fuel ctx iter w = some o) : P fuel iter w o := by
  induction fuel generalizing iter w o with
  | zero =>
    cases hf : iter.NextBatchFunc with
    | none => rw [Next_nil 0 ctx iter w hf] at h; cases h; exact hnil _ iter w hf
    | some f =>
      by_cases he : iter.lastError = none
      · by_cases hb : 1 < iter.batch.length
        · rw [Next_buffered 0 ctx iter w f hf he hb] at h; cases h
          exact hbuffered _ iter w f hf he hb
        · have hb1 : iter.batch.length ≤ 1 := by omega
          cases hl : iter.isLastBatch with
          | true =>
            rw [Next_last 0 ctx iter w f hf he hb1 hl] at h; cases h
            exact hlast _ iter w f hf he hb1 hl
          | false =>
            by_cases hr : (f ctx w).1.err = none
            · by_cases hi : (f ctx w).1.items = []
              · cases hm : (f ctx w).1.hasMoreItems with
                | true =>
                  rw [Next_fetch_retry_zero ctx iter w f hf he hb1 hl hr hi hm] at h
                  cases h
                | false =>
                  rw [Next_fetch_eof 0 ctx iter w f hf he hb1 hl hr hi hm] at h; cases h
                  exact heof _ iter w f hf he hb1 hl hr hi hm
              · rw [Next_fetch_items 0 ctx iter w f hf he hb1 hl hr hi] at h; cases h
                exact hitems _ iter w f hf he hb1 hl hr hi
            · rw [Next_fetch_err 0 ctx iter w f hf he hb1 hl hr] at h; cases h
              exact herr _ iter w f hf he hb1 hl hr
      · rw [Next_latched 0 ctx iter w f hf he] at h; cases h
        exact hlatched _ iter w f hf he
  | succ n ih =>
    cases hf : iter.NextBatchFunc with
    | none => rw [Next_nil _ ctx iter w hf] at h; cases h; exact hnil _ iter w hf
    | some f =>
      by_cases he : iter.lastError = none
      · by_cases hb : 1 < iter.batch.length
        · rw [Next_buffered _ ctx iter w f hf he hb] at h; cases h
          exact hbuffered _ iter w f hf he hb
        · have hb1 : iter.batch.length ≤ 1 := by omega
          cases hl : iter.isLastBatch with
          | true =>
            rw [Next_last _ ctx iter w f hf he hb1 hl] at h; cases h
            exact hlast _ iter w f hf he hb1 hl
          | false =>
            by_cases hr : (f ctx w).1.err = none
            · by_cases hi : (f ctx w).1.items = []
              · cases hm : (f ctx w).1.hasMoreItems with
                | true =>
                  rw [Next_fetch_retry_succ n ctx iter w f hf he hb1 hl hr hi hm] at h
                  obtain ⟨o1, hN, rfl⟩ := Option.map_eq_some'.mp h
                  exact hretry n iter w f hf he hb1 hl hr hi hm o1 (ih _ _ _ hN)
                | false =>
                  rw [Next_fetch_eof _ ctx iter w f hf he hb1 hl hr hi hm] at h; cases h
                  exact heof _ iter w f hf he hb1 hl hr hi hm
              · rw [Next_fetch_items _ ctx iter w f hf he hb1 hl hr hi] at h; cases h
                exact hitems _ iter w f hf he hb1 hl hr hi
            · rw [Next_fetch_err _ ctx iter w f hf he hb1 hl hr] at h; cases h
              exact herr _ iter w f hf he hb1 hl hr
      · rw [Next_latched _ ctx iter w f hf he] at h; cases h
        exact hlatched _ iter w f hf he

/-- A call of `Next` that returns within a budget returns the same with a larger one. -/
theorem Next_mono_succ (ctx : κ) (fuel : Nat) (iter : Iterator T σ κ) (w : σ)
    (o : NextOutcome T σ κ) (h : Next fuel ctx iter w = some o) :
    Next (fuel + 1) ctx iter w = some o := by
  refine Next_rule ctx (fun n iter w o => Next (n + 1) ctx iter w = some o)
    ?_ ?_ ?_ ?_ ?_ ?_ ?_ ?_ fuel iter w o h
  · intro n iter w hf; exact Next_nil _ ctx iter w hf
  · intro n iter w f hf he; exact Next_latched _ ctx iter w f hf he
  · intro n iter w f hf he hb; exact Next_buffered _ ctx iter w f hf he hb
  · intro n iter w f hf he hb hl; exact Next_last _ ctx iter w f hf he hb hl
  · intro n iter w f hf he hb hl hr; exact Next_fetch_err _ ctx iter w f hf he hb hl hr
  · intro n iter w f hf he hb hl hr hi hm
    exact Next_fetch_eof _ ctx iter w f hf he hb hl hr hi hm
  · intro n iter w f hf he hb hl hr hi
    exact Next_fetch_items _ ctx iter w f hf he hb hl hr hi
  · intro n iter w f hf he hb hl hr hi hm o ho
    rw [Next_fetch_retry_succ (n + 1) ctx iter w f hf he hb hl hr hi hm, ho]
    rfl

theorem Next_mono (ctx : κ) (fuel k : Nat) (iter : Iterator T σ κ) (w : σ)
    (o : NextOutcome T σ κ) (h : Next fuel ctx iter w = some o) :
    Next (fuel + k) ctx iter w = some o := by
  induction k with
  | zero => exact h
  | succ k ih => exact Next_mono_succ ctx (fuel + k) iter w o ih

/-- `Next` never changes the field `NextBatchFunc`. -/
theorem Next_keeps_func (ctx : κ) (fuel : Nat) (iter : Iterator T σ κ) (w : σ)
    (o : NextOutcome T σ κ) (h : Next fuel ctx iter w = some o) :
    o.iter.NextBatchFunc = iter.NextBatchFunc := by
  refine Next_rule ctx (fun _ iter _ o => o.iter.NextBatchFunc = iter.NextBatchFunc)
    ?_ ?_ ?_ ?_ ?_ ?_ ?_ ?_ fuel iter w o h
  · intro n iter w hf; rfl
  · intro n iter w f hf he; rfl
  · intro n iter w f hf he hb; rfl
  · intro n iter w f hf he hb hl; rfl
  · intro n iter w f hf he hb hl hr; exact hf.symm
  · intro n iter w f hf he hb hl hr hi hm; exact hf.symm
  · intro n iter w f hf he hb hl hr hi; exact hf.symm
  · intro n iter w f hf he hb hl hr hi hm o ho; simpa [hf] using ho

theorem Value_of_nil (iter : Iterator T σ κ) (h : iter.batch = []) : Value iter = none := by
  simp [Value, h]

theorem Value_of_cons (iter : Iterator T σ κ) (x : T) (t : List T) (h : iter.batch = x :: t) :
    Value iter = some x := by
  simp [Value, h]

theorem Value_ne_none (iter : Iterator T σ κ) (h : iter.batch ≠ []) : Value iter ≠ none := by
  cases hb : iter.batch with
  | nil => exact absurd hb h
  | cons x t => simp [Value_of_cons iter x t hb]

theorem drop_one_ne_nil (b : List T) (h : 1 < b.length) : b.drop 1 ≠ [] := by
  intro hd
  have := congrArg List.length hd
  simp at this
  omega

/-- Shape of every outcome of `Next`: true comes with a non-empty batch, false with
the empty batch. -/
theorem Next_ok_batch (ctx : κ) (fuel : Nat) (iter : Iterator T σ κ) (w : σ)
    (o : NextOutcome T σ κ) (h : Next fuel ctx iter w = some o) :
    (o.ok = true ∧ o.iter.batch ≠ []) ∨ (o.ok = false ∧ o.iter.batch = []) := by
  refine Next_rule ctx
    (fun _ _ _ o => (o.ok = true ∧ o.iter.batch ≠ []) ∨ (o.ok = false ∧ o.iter.batch = []))
    ?_ ?_ ?_ ?_ ?_ ?_ ?_ ?_ fuel iter w o h
  · intro n iter w hf; exact Or.inr ⟨rfl, rfl⟩
  · intro n iter w f hf he; exact Or.inr ⟨rfl, rfl⟩
  · intro n iter w f hf he hb; exact Or.inl ⟨rfl, drop_one_ne_nil _ hb⟩
  · intro n iter w f hf he hb hl; exact Or.inr ⟨rfl, rfl⟩
  · intro n iter w f hf he hb hl hr; exact Or.inr ⟨rfl, rfl⟩
  · intro n iter w f hf he hb hl hr hi hm; exact Or.inr ⟨rfl, rfl⟩
  · intro n iter w f hf he hb hl hr hi; exact Or.inl ⟨rfl, hi⟩
  · intro n iter w f hf he hb hl hr hi hm o ho; exact ho

/-- Unfolding of `runCalls` at a call of `Next` that returns. -/
theorem runCalls_next (fuel : Nat) (ctx : κ) (cs : List (Call T σ κ)) (iter : Iterator T σ κ)
    (w : σ) (o : NextOutcome T σ κ) (ro : RunOutcome T σ κ)
    (hN : Next fuel ctx iter w = some o) (hR : runCalls fuel cs o.iter o.world = some ro) :
    runCalls fuel (Call.next ctx :: cs) iter w =
      some { returns := o.ok :: ro.returns, iter := ro.iter, world := ro.world,
             fetched := o.fetched ++ ro.fetched } := by
  simp only [runCalls, hN, hR]

/-- A latched error stays through any calls: every `Next` answers false without
fetching. -/
theorem runCalls_latched (fuel : Nat) (cs : List (Call T σ κ)) (iter : Iterator T σ κ) (w : σ)
    (he : iter.lastError ≠ none) :
    ∃ ro, runCalls fuel cs iter w = some ro ∧
      ro.returns = List.replicate (cs.countP Call.isNext) false ∧
      ro.world = w ∧ ro.fetched = [] ∧ ro.iter.lastError ≠ none := by
  induction cs generalizing iter with
  | nil => exact ⟨_, rfl, rfl, rfl, rfl, he⟩
  | cons c cs ih =>
    cases c with
    | setNextBatchFunc g =>
      obtain ⟨ro, h1, h2, h3, h4, h5⟩ := ih { iter with NextBatchFunc := g } he
      exact ⟨ro, by simpa [runCalls] using h1, by simpa [Call.isNext] using h2, h3, h4, h5⟩
    | next ctx =>
      cases hf : iter.NextBatchFunc with
      | none =>
        obtain ⟨ro, h1, h2, h3, h4, h5⟩ :=
          ih { iter with
                batch := []
                lastError := some (errorsNew "iterator has no next batch function") }
            (by simp)
        exact ⟨_, runCalls_next fuel ctx cs iter w _ ro (Next_nil fuel ctx iter w hf) h1,
          by simp [Call.isNext, h2, List.replicate_succ], h3, by simp [h4], h5⟩
      | some f =>
        obtain ⟨ro, h1, h2, h3, h4, h5⟩ := ih { iter with batch := [] } he
        exact ⟨_, runCalls_next fuel ctx cs iter w _ ro (Next_latched fuel ctx iter w f hf he) h1,
          by simp [Call.isNext, h2, List.replicate_succ], h3, by simp [h4], h5⟩

/-- With a fetch function kept configured, the latched error value itself stays. -/
theorem runCalls_latched_keep (fuel : Nat) (cs : List (Call T σ κ)) (iter : Iterator T σ κ)
    (w : σ) (e : GoError) (he : iter.lastError = some e) (hf : iter.NextBatchFunc ≠ none)
    (hcs : cs.all Call.keepsFunc = true) :
    ∃ ro, runCalls fuel cs iter w = some ro ∧ ro.iter.lastError = some e := by
  induction cs generalizing iter with
  | nil => exact ⟨_, rfl, he⟩
  | cons c cs ih =>
    simp only [List.all_cons, Bool.and_eq_true] at hcs
    cases c with
    | setNextBatchFunc g =>
      cases g with
      | none => simp [Call.keepsFunc] at hcs
      | some g =>
        obtain ⟨ro, h1, h2⟩ := ih { iter with NextBatchFunc := some g } he (by simp) hcs.2
        exact ⟨ro, by simpa [runCalls] using h1, h2⟩
    | next ctx =>
      cases hg : iter.NextBatchFunc with
      | none => exact absurd hg hf
      | some f =>
        have hne : iter.lastError ≠ none := by simp [he]
        obtain ⟨ro, h1, h2⟩ := ih { iter with batch := [] } he (by simp [hg]) hcs.2
        exact ⟨_, runCalls_next fuel ctx cs iter w _ ro
          (Next_latched fuel ctx iter w f hg hne) h1, h2⟩

/-- Once sealed (an error is latched or the last batch has been fetched), no call
fetches again, whatever is assigned to `NextBatchFunc`. -/
theorem runCalls_sealed (fuel : Nat) (cs : List (Call T σ κ)) (iter : Iterator T σ κ) (w : σ)
    (hs : iter.lastError ≠ none ∨ iter.isLastBatch = true) :
    ∃ ro, runCalls fuel cs iter w = some ro ∧ ro.world = w ∧ ro.fetched = [] ∧
      (ro.iter.lastError ≠ none ∨ ro.iter.isLastBatch = true) := by
  induction cs generalizing iter with
  | nil => exact ⟨_, rfl, rfl, rfl, hs⟩
  | cons c cs ih =>
    cases c with
    | setNextBatchFunc g =>
      obtain ⟨ro, h1, h2, h3, h4⟩ := ih { iter with NextBatchFunc := g } hs
      exact ⟨ro, by simpa [runCalls] using h1, h2, h3, h4⟩
    | next ctx =>
      cases hf : iter.NextBatchFunc with
      | none =>
        obtain ⟨ro, h1, h2, h3, h4⟩ :=
          ih { iter with
                batch := []
                lastError := some (errorsNew "iterator has no next batch function") }
            (Or.inl (by simp))
        exact ⟨_, runCalls_next fuel ctx cs iter w _ ro (Next_nil fuel ctx iter w hf) h1,
          h2, by simp [h3], h4⟩
      | some f =>
        by_cases he : iter.lastError = none
        · have hl : iter.isLastBatch = true := by
            rcases hs with hs | hs
            · exact absurd he hs
            · exact hs
          by_cases hb : 1 < iter.batch.length
          · obtain ⟨ro, h1, h2, h3, h4⟩ :=
              ih { iter with batch := iter.batch.drop 1 } (Or.inr hl)
            exact ⟨_, runCalls_next fuel ctx cs iter w _ ro
              (Next_buffered fuel ctx iter w f hf he hb) h1, h2, by simp [h3], h4⟩
          · obtain ⟨ro, h1, h2, h3, h4⟩ := ih { iter with batch := [] } (Or.inr hl)
            exact ⟨_, runCalls_next fuel ctx cs iter w _ ro
              (Next_last fuel ctx iter w f hf he (by omega) hl) h1, h2, by simp [h3], h4⟩
        · obtain ⟨ro, h1, h2, h3, h4⟩ := ih { iter with batch := [] } (Or.inl he)
          exact ⟨_, runCalls_next fuel ctx cs iter w _ ro
            (Next_latched fuel ctx iter w f hf he) h1, h2, by simp [h3], h4⟩

/-- An exhausted iterator (empty batch; sentinel latched, or last batch consumed)
with a fetch function kept configured stays exhausted: every `Next` answers false
without fetching. -/
theorem runCalls_exhausted (fuel : Nat) (cs : List (Call T σ κ)) (iter : Iterator T σ κ)
    (w : σ) (hf : iter.NextBatchFunc ≠ none) (hb : iter.batch = [])
    (hx : iter.lastError = some GoError.EOF ∨
      (iter.lastError = none ∧ iter.isLastBatch = true))
    (hcs : cs.all Call.keepsFunc = true) :
    ∃ ro, runCalls fuel cs iter w = some ro ∧
      ro.returns = List.replicate (cs.countP Call.isNext) false ∧
      ro.world = w ∧ ro.fetched = [] ∧ ro.iter.batch = [] ∧
      (ro.iter.lastError = some GoError.EOF ∨
        (ro.iter.lastError = none ∧ ro.iter.isLastBatch = true)) := by
  induction cs generalizing iter with
  | nil => exact ⟨_, rfl, rfl, rfl, rfl, hb, hx⟩
  | cons c cs ih =>
    simp only [List.all_cons, Bool.and_eq_true] at hcs
    cases c with
    | setNextBatchFunc g =>
      cases g with
      | none => simp [Call.keepsFunc] at hcs
      | some g =>
        obtain ⟨ro, h1, h2, h3, h4, h5, h6⟩ :=
          ih { iter with NextBatchFunc := some g } (by simp) hb hx hcs.2
        exact ⟨ro, by simpa [runCalls] using h1, by simpa [Call.isNext] using h2, h3, h4, h5, h6⟩
    | next ctx =>
      cases hg : iter.NextBatchFunc with
      | none => exact absurd hg hf
      | some f =>
        obtain ⟨ro, h1, h2, h3, h4, h5, h6⟩ :=
          ih { iter with batch := [] } (by simp [hg]) rfl hx hcs.2
        have hN : Next fuel ctx iter w =
            some { ok := false, iter := { iter with batch := [] }, world := w, fetched := [] } := by
          rcases hx with hx | ⟨hx, hl⟩
          · exact Next_latched fuel ctx iter w f hg (by simp [hx])
          · exact Next_last fuel ctx iter w f hg hx (by simp [hb]) hl
        exact ⟨_, runCalls_next fuel ctx cs iter w _ ro hN h1,
          by simp [Call.isNext, h2, List.replicate_succ], h3, by simp [h4], h5, h6⟩

/-- C2: whenever a call of `Next` returns, it returns true exactly when `Value`
called right after it is non-nil; and when it returns false the batch is empty
and `Value` is nil. -/
theorem Next_true_iff_Value (fuel : Nat) (ctx : κ) (iter : Iterator T σ κ) (w : σ)
    (o : NextOutcome T σ κ) (h : Next fuel ctx iter w = some o) :
    (o.ok = true ↔ Value o.iter ≠ none) ∧
      (o.ok = false → o.iter.batch = [] ∧ Value o.iter = none) := by
  rcases Next_ok_batch ctx fuel iter w o h with ⟨hok, hb⟩ | ⟨hok, hb⟩
  · exact ⟨⟨fun _ => Value_ne_none _ hb, fun _ => hok⟩, fun hf => by simp [hok] at hf⟩
  · refine ⟨⟨fun ht => by simp [hok] at ht, fun hv => absurd (Value_of_nil _ hb) hv⟩, ?_⟩
    exact fun _ => ⟨hb, Value_of_nil _ hb⟩

theorem Next_true_iff_Value_witness :
    Next 0 () (Iterator.new (some (StaticSlice [1, 2]))) () =
        some { ok := true
               iter := { NextBatchFunc := some (StaticSlice [1, 2]), batch := [1, 2],
                         lastError := none, isLastBatch := true }
               world := ()
               fetched := [{ items := [1, 2], hasMoreItems := false, err := none }] } ∧
      ((true = true ↔
          Value ({ NextBatchFunc := some (StaticSlice [1, 2]), batch := [1, 2],
                   lastError := none, isLastBatch := true } : Iterator Nat Unit Unit) ≠ none) ∧
        (true = false →
          [1, 2] = [] ∧
          Value ({ NextBatchFunc := some (StaticSlice [1, 2]), batch := [1, 2],
                   lastError := none, isLastBatch := true } : Iterator Nat Unit Unit) = none)) :=
  ⟨rfl, Next_true_iff_Value 0 () (Iterator.new (some (StaticSlice [1, 2]))) ()
    { ok := true
      iter := { NextBatchFunc := some (StaticSlice [1, 2]), batch := [1, 2],
                lastError := none, isLastBatch := true }
      world := ()
      fetched := [{ items := [1, 2], hasMoreItems := false, err := none }] } rfl⟩

/-- In a returning call of `Next`, a fetch result that carries an error is latched:
it is the value of `lastError` afterwards, and a fetch function is configured. -/
theorem Next_fetched_err (ctx : κ) (fuel : Nat) (iter : Iterator T σ κ) (w : σ)
    (o : NextOutcome T σ κ) (h : Next fuel ctx iter w = some o) :
    ∀ r ∈ o.fetched, r.err ≠ none →
      o.iter.lastError = r.err ∧ o.iter.NextBatchFunc ≠ none := by
  refine Next_rule ctx
    (fun _ _ _ o => ∀ r ∈ o.fetched, r.err ≠ none →
      o.iter.lastError = r.err ∧ o.iter.NextBatchFunc ≠ none)
    ?_ ?_ ?_ ?_ ?_ ?_ ?_ ?_ fuel iter w o h
  · intro n iter w hf r hr; simp at hr
  · intro n iter w f hf he r hr; simp at hr
  · intro n iter w f hf he hb r hr; simp at hr
  · intro n iter w f hf he hb hl r hr; simp at hr
  · intro n iter w f hf he hb hl hr r hmem hne
    simp only [List.mem_singleton] at hmem
    subst hmem
    exact ⟨rfl, by simp⟩
  · intro n iter w f hf he hb hl hr hi hm r hmem hne
    simp only [List.mem_singleton] at hmem
    subst hmem
    exact absurd hr hne
  · intro n iter w f hf he hb hl hr hi r hmem hne
    simp only [List.mem_singleton] at hmem
    subst hmem
    exact absurd hr hne
  · intro n iter w f hf he hb hl hr hi hm o ho r hmem hne
    simp only [List.mem_cons] at hmem
    rcases hmem with hmem | hmem
    · subst hmem; exact absurd hr hne
    · exact ho r hmem hne

/-- C3 (as the claim states it, refuted): a fetch function returns the non-absent
error `io.EOF`, and `Error` called after that `Next` returns nil, not `io.EOF`. -/
theorem Error_after_fetch_error_counterexample :
    (Next 0 () (Iterator.new (some (errorFunc false GoError.EOF)) : Iterator Nat Unit Unit) ()).map
        (fun o => (o.ok, o.fetched, Error o.iter)) =
      some (false, [{ items := [], hasMoreItems := false, err := some GoError.EOF }], none) ∧
    (none : Option GoError) ≠ some GoError.EOF := by
  constructor
  · rfl
  · simp

/-- C3 (amended): once a fetch call returns an error `e` other than `io.EOF`, with
either value of `hasMoreItems`, `Error` returns exactly `e` after that `Next` and
after any further calls that keep a fetch function configured; when `e` is
`io.EOF`, `Error` returns nil instead. -/
theorem Error_after_fetch_error (fuel : Nat) (ctx : κ) (iter : Iterator T σ κ) (w : σ)
    (o : NextOutcome T σ κ) (h : Next fuel ctx iter w = some o)
    (r : FetchResult T) (hr : r ∈ o.fetched) (e : GoError) (he : r.err = some e)
    (fuel2 : Nat) (cs : List (Call T σ κ)) (hcs : cs.all Call.keepsFunc = true) :
    Error o.iter = (if e = GoError.EOF then none else some e) ∧
    ∃ ro, runCalls fuel2 cs o.iter o.world = some ro ∧
      Error ro.iter = (if e = GoError.EOF then none else some e) := by
  obtain ⟨h1, h2⟩ := Next_fetched_err ctx fuel iter w o h r hr (by simp [he])
  rw [he] at h1
  have key : ∀ it : Iterator T σ κ, it.lastError = some e →
      Error it = (if e = GoError.EOF then none else some e) := by
    intro it hit
    by_cases hE : e = GoError.EOF
    · simp [Error, hit, hE]
    · simp [Error, hit, hE]
  refine ⟨key _ h1, ?_⟩
  obtain ⟨ro, hro, hle⟩ := runCalls_latched_keep fuel2 cs o.iter o.world e h1 h2 hcs
  exact ⟨ro, hro, key _ hle⟩

theorem Error_after_fetch_error_witness :
    Next 0 () iterWithMoreData () =
        some { ok := false, iter := iterWithMoreDataFailed, world := (),
               fetched := [{ items := [], hasMoreItems := true,
                             err := some (errorsNew "some error") }] } ∧
      callsReassign.all Call.keepsFunc = true ∧
      (Error iterWithMoreDataFailed =
          (if errorsNew "some error" = GoError.EOF then none
            else some (errorsNew "some error")) ∧
        ∃ ro, runCalls 0 callsReassign iterWithMoreDataFailed () = some ro ∧
          Error ro.iter =
            (if errorsNew "some error" = GoError.EOF then none
              else some (errorsNew "some error"))) :=
  ⟨rfl, rfl,
    Error_after_fetch_error 0 () iterWithMoreData ()
      { ok := false, iter := iterWithMoreDataFailed, world := (),
        fetched := [{ items := [], hasMoreItems := true,
                      err := some (errorsNew "some error") }] }
      rfl { items := [], hasMoreItems := true, err := some (errorsNew "some error") }
      (List.mem_singleton.mpr rfl) (errorsNew "some error") rfl 0 callsReassign rfl⟩

/-- C4: once an error is latched (any value of `lastError`: a fetch error, the
configuration error, or the `io.EOF` sentinel), every later `Next` returns false
and no fetch function is invoked, however many calls follow and whatever is
assigned to `NextBatchFunc` in between. -/
theorem latched_error_stops_fetching (iter : Iterator T σ κ) (w : σ) (e : GoError)
    (he : iter.lastError = some e) (fuel : Nat) (cs : List (Call T σ κ)) :
    ∃ ro, runCalls fuel cs iter w = some ro ∧
      ro.returns = List.replicate (cs.countP Call.isNext) false ∧
      ro.fetched = [] ∧ ro.world = w ∧ ro.iter.lastError ≠ none := by
  obtain ⟨ro, h1, h2, h3, h4, h5⟩ := runCalls_latched fuel cs iter w (by simp [he])
  exact ⟨ro, h1, h2, h4, h3, h5⟩

theorem latched_error_stops_fetching_witness :
    iterWithMoreDataFailed.lastError = some (errorsNew "some error") ∧
      ∃ ro, runCalls 0 callsUnsetReassign iterWithMoreDataFailed () = some ro ∧
        ro.returns = List.replicate (callsUnsetReassign.countP Call.isNext) false ∧
        ro.fetched = [] ∧ ro.world = () ∧ ro.iter.lastError ≠ none :=
  ⟨rfl, latched_error_stops_fetching iterWithMoreDataFailed () (errorsNew "some error") rfl 0
    callsUnsetReassign⟩

/-- A call of `Next` that returns false and leaves `Error` nil leaves the iterator
exhausted: a fetch function configured, the batch empty, and either the sentinel
latched or the last batch consumed. -/
theorem Next_false_no_error (ctx : κ) (fuel : Nat) (iter : Iterator T σ κ) (w : σ)
    (o : NextOutcome T σ κ) (h : Next fuel ctx iter w = some o) :
    o.ok = false → Error o.iter = none →
      o.iter.NextBatchFunc ≠ none ∧ o.iter.batch = [] ∧
        (o.iter.lastError = some GoError.EOF ∨
          (o.iter.lastError = none ∧ o.iter.isLastBatch = true)) := by
  refine Next_rule ctx
    (fun _ _ _ o => o.ok = false → Error o.iter = none →
      o.iter.NextBatchFunc ≠ none ∧ o.iter.batch = [] ∧
        (o.iter.lastError = some GoError.EOF ∨
          (o.iter.lastError = none ∧ o.iter.isLastBatch = true)))
    ?_ ?_ ?_ ?_ ?_ ?_ ?_ ?_ fuel iter w o h
  · intro n iter w hf _ hE
    simp [Error, errorsNew] at hE
  · intro n iter w f hf he _ hE
    refine ⟨by simp [hf], rfl, Or.inl ?_⟩
    by_cases hx : iter.lastError = some GoError.EOF
    · exact hx
    · simp [Error, hx] at hE; exact absurd hE he
  · intro n iter w f hf he hb hok; simp at hok
  · intro n iter w f hf he hb hl _ _
    exact ⟨by simp [hf], rfl, Or.inr ⟨he, hl⟩⟩
  · intro n iter w f hf he hb hl hr _ hE
    refine ⟨by simp, rfl, Or.inl ?_⟩
    by_cases hx : (f ctx w).1.err = some GoError.EOF
    · exact hx
    · simp [Error, hx] at hE; exact absurd hE hr
  · intro n iter w f hf he hb hl hr hi hm _ _
    exact ⟨by simp, rfl, Or.inl rfl⟩
  · intro n iter w f hf he hb hl hr hi hok; simp at hok
  · intro n iter w f hf he hb hl hr hi hm o ho
    exact ho

/-- C5: after a `Next` that returned false with `Error` nil, and with a fetch
function kept configured, every further `Next` returns false, `Error` and `Value`
stay nil, and the fetch function is not invoked again. -/
theorem Next_idempotent_after_exhaustion (fuel : Nat) (ctx : κ) (iter : Iterator T σ κ)
    (w : σ) (o : NextOutcome T σ κ) (h : Next fuel ctx iter w = some o)
    (hok : o.ok = false) (herr : Error o.iter = none)
    (fuel2 : Nat) (cs : List (Call T σ κ)) (hcs : cs.all Call.keepsFunc = true) :
    ∃ ro, runCalls fuel2 cs o.iter o.world = some ro ∧
      ro.returns = List.replicate (cs.countP Call.isNext) false ∧
      Error ro.iter = none ∧ Value ro.iter = none ∧
      ro.fetched = [] ∧ ro.world = o.world := by
  obtain ⟨hf, hb, hx⟩ := Next_false_no_error ctx fuel iter w o h hok herr
  obtain ⟨ro, h1, h2, h3, h4, h5, h6⟩ := runCalls_exhausted fuel2 cs o.iter o.world hf hb hx hcs
  refine ⟨ro, h1, h2, ?_, Value_of_nil _ h5, h4, h3⟩
  rcases h6 with h6 | ⟨h6, _⟩
  · simp [Error, h6]
  · simp [Error, h6]

theorem Next_idempotent_after_exhaustion_witness :
    Next 0 () (iterABCAt 2) () =
        some { ok := false, iter := iterABCAt 3, world := (), fetched := [] } ∧
      Error (iterABCAt 3) = none ∧
      callsReassign.all Call.keepsFunc = true ∧
      ∃ ro, runCalls 0 callsReassign (iterABCAt 3) () = some ro ∧
        ro.returns = List.replicate (callsReassign.countP Call.isNext) false ∧
        Error ro.iter = none ∧ Value ro.iter = none ∧
        ro.fetched = [] ∧ ro.world = () :=
  ⟨rfl, rfl, rfl,
    Next_idempotent_after_exhaustion 0 () (iterABCAt 2) ()
      { ok := false, iter := iterABCAt 3, world := (), fetched := [] } rfl rfl rfl 0
      callsReassign rfl⟩

/-- C6: whatever the state, a `Next` called while `NextBatchFunc` is nil returns
false, discards the batch so that `Value` is nil, fetches nothing, and makes
`Error` return an error whose message is "iterator has no next batch function". -/
theorem Next_without_func (fuel : Nat) (ctx : κ) (batch : List T)
    (lastError : Option GoError) (isLastBatch : Bool) (w : σ) :
    ∃ o, Next fuel ctx
          ({ NextBatchFunc := none, batch := batch, lastError := lastError,
             isLastBatch := isLastBatch } : Iterator T σ κ) w = some o ∧
      o.ok = false ∧ Value o.iter = none ∧ o.iter.batch = [] ∧
      (Error o.iter).map GoError.message = some "iterator has no next batch function" ∧
      o.fetched = [] ∧ o.world = w := by
  refine ⟨_, Next_nil fuel ctx _ w rfl, rfl, ?_, rfl, ?_, rfl, rfl⟩
  · exact Value_of_nil _ rfl
  · simp [Error, errorsNew, GoError.message]

/-- In a returning call of `Next`, a fetch result without error and with
`hasMoreItems = false` seals the iterator: an error (the sentinel) is latched or
`isLastBatch` is set. -/
theorem Next_fetched_last (ctx : κ) (fuel : Nat) (iter : Iterator T σ κ) (w : σ)
    (o : NextOutcome T σ κ) (h : Next fuel ctx iter w = some o) :
    ∀ r ∈ o.fetched, r.err = none → r.hasMoreItems = false →
      (o.iter.lastError ≠ none ∨ o.iter.isLastBatch = true) := by
  refine Next_rule ctx
    (fun _ _ _ o => ∀ r ∈ o.fetched, r.err = none → r.hasMoreItems = false →
      (o.iter.lastError ≠ none ∨ o.iter.isLastBatch = true))
    ?_ ?_ ?_ ?_ ?_ ?_ ?_ ?_ fuel iter w o h
  · intro n iter w hf r hr; simp at hr
  · intro n iter w f hf he r hr; simp at hr
  · intro n iter w f hf he hb r hr; simp at hr
  · intro n iter w f hf he hb hl r hr; simp at hr
  · intro n iter w f hf he hb hl hr r hmem hne
    simp only [List.mem_singleton] at hmem
    subst hmem
    exact absurd hne hr
  · intro n iter w f hf he hb hl hr hi hm r hmem _ _
    exact Or.inl (by simp)
  · intro n iter w f hf he hb hl hr hi r hmem _ hmore
    simp only [List.mem_singleton] at hmem
    subst hmem
    exact Or.inr (by simp [hmore])
  · intro n iter w f hf he hb hl hr hi hm o ho r hmem hne hmore
    simp only [List.mem_cons] at hmem
    rcases hmem with hmem | hmem
    · subst hmem; rw [hm] at hmore; cases hmore
    · exact ho r hmem hne hmore

/-- C7: after a fetch result with `hasMoreItems = false` and no error, whether its
batch is empty or not, no later `Next` invokes a fetch function again, however
many calls follow (and whatever is assigned to `NextBatchFunc` in between). -/
theorem no_fetch_after_last_batch (fuel : Nat) (ctx : κ) (iter : Iterator T σ κ) (w : σ)
    (o : NextOutcome T σ κ) (h : Next fuel ctx iter w = some o)
    (r : FetchResult T) (hr : r ∈ o.fetched) (he : r.err = none)
    (hm : r.hasMoreItems = false) (fuel2 : Nat) (cs : List (Call T σ κ)) :
    ∃ ro, runCalls fuel2 cs o.iter o.world = some ro ∧
      ro.fetched = [] ∧ ro.world = o.world := by
  have hs := Next_fetched_last ctx fuel iter w o h r hr he hm
  obtain ⟨ro, h1, h2, h3, _⟩ := runCalls_sealed fuel2 cs o.iter o.world hs
  exact ⟨ro, h1, h3, h2⟩

theorem no_fetch_after_last_batch_witness :
    Next 0 () iterABC () =
        some { ok := true, iter := iterABCAt 0, world := (),
               fetched := [{ items := ["A", "B", "C"], hasMoreItems := false, err := none }] } ∧
      ∃ ro, runCalls 0 callsUnsetReassign (iterABCAt 0) () = some ro ∧
        ro.fetched = [] ∧ ro.world = () :=
  ⟨rfl,
    no_fetch_after_last_batch 0 () iterABC ()
      { ok := true, iter := iterABCAt 0, world := (),
        fetched := [{ items := ["A", "B", "C"], hasMoreItems := false, err := none }] }
      rfl { items := ["A", "B", "C"], hasMoreItems := false, err := none }
      (List.mem_singleton.mpr rfl) rfl rfl 0 callsUnsetReassign⟩

/-- C9: from an active iterator (fetch function configured, no error latched, last
batch not yet seen) whose batch has at most one item, if the fetch function
answers `k` times `nil, true, nil` and then a result `r` that is non-empty, or has
`hasMoreItems = false`, or carries an error, then one call of `Next` (with a
budget of at least `k` self-calls) returns after exactly `k + 1` fetch invocations,
and its return value and the state it leaves are fixed by `r` alone. -/
theorem Next_skips_empty_batches (ctx : κ) (f : NextBatchFunction T σ κ) (k : Nat)
    (iter : Iterator T σ κ) (w : σ)
    (hf : iter.NextBatchFunc = some f) (he : iter.lastError = none)
    (hb : iter.batch.length ≤ 1) (hl : iter.isLastBatch = false)
    (hempty : ∀ i, i < k → (f ctx (fetchWorld f ctx i w)).1 = emptyMore)
    (r : FetchResult T) (hr : (f ctx (fetchWorld f ctx k w)).1 = r)
    (hdec : r.items ≠ [] ∨ r.hasMoreItems = false ∨ r.err ≠ none)
    (fuel : Nat) (hfuel : k ≤ fuel) :
    ∃ o, Next fuel ctx iter w = some o ∧
      o.fetched = List.replicate k emptyMore ++ [r] ∧ o.fetched.length = k + 1 ∧
      o.world = fetchWorld f ctx (k + 1) w ∧
      o.iter.NextBatchFunc = some f ∧ o.iter.isLastBatch = (!r.hasMoreItems) ∧
      (r.err ≠ none → o.ok = false ∧ o.iter.batch = [] ∧ o.iter.lastError = r.err) ∧
      (r.err = none → r.items = [] →
        o.ok = false ∧ o.iter.batch = [] ∧ o.iter.lastError = some GoError.EOF) ∧
      (r.err = none → r.items ≠ [] →
        o.ok = true ∧ o.iter.batch = r.items ∧ o.iter.lastError = none ∧
          Value o.iter = r.items.head?) := by
  induction k generalizing iter w fuel with
  | zero =>
    simp only [fetchWorld] at hr
    subst hr
    by_cases hre : (f ctx w).1.err = none
    · by_cases hri : (f ctx w).1.items = []
      · have hm : (f ctx w).1.hasMoreItems = false := by
          rcases hdec with h | h | h
          · exact absurd hri h
          · exact h
          · exact absurd hre h
        refine ⟨_, Next_fetch_eof fuel ctx iter w f hf he hb hl hre hri hm, by simp, by simp,
          rfl, rfl, by simp [hm], ?_, ?_, ?_⟩
        · intro h; exact absurd hre h
        · intro _ _; exact ⟨rfl, rfl, rfl⟩
        · intro _ h; exact absurd hri h
      · refine ⟨_, Next_fetch_items fuel ctx iter w f hf he hb hl hre hri, by simp, by simp,
          rfl, rfl, rfl, ?_, ?_, ?_⟩
        · intro h; exact absurd hre h
        · intro _ h; exact absurd h hri
        · intro _ _
          refine ⟨rfl, rfl, rfl, ?_⟩
          cases hits : (f ctx w).1.items with
          | nil => exact absurd hits hri
          | cons x t => simp [Value, hits]
    · refine ⟨_, Next_fetch_err fuel ctx iter w f hf he hb hl hre, by simp, by simp,
        rfl, rfl, rfl, ?_, ?_, ?_⟩
      · intro _; exact ⟨rfl, rfl, rfl⟩
      · intro h; exact absurd h hre
      · intro h; exact absurd h hre
  | succ k ih =>
    have h0 : (f ctx w).1 = emptyMore := hempty 0 (Nat.succ_pos k)
    have h0e : (f ctx w).1.err = none := by rw [h0]; rfl
    have h0i : (f ctx w).1.items = [] := by rw [h0]; rfl
    have h0m : (f ctx w).1.hasMoreItems = true := by rw [h0]; rfl
    obtain ⟨n, rfl⟩ : ∃ n, fuel = n + 1 := ⟨fuel - 1, by omega⟩
    obtain ⟨o, hN, h1, h2, h3, h4, h5, h6, h7, h8⟩ :=
      ih { NextBatchFunc := some f, batch := [], lastError := none, isLastBatch := false }
        (f ctx w).2 rfl rfl (by simp) rfl
        (fun i hi => hempty (i + 1) (Nat.succ_lt_succ hi)) hr n (by omega)
    refine ⟨{ o with fetched := (f ctx w).1 :: o.fetched }, ?_, ?_, ?_, h3, h4, h5, h6, h7, h8⟩
    · rw [Next_fetch_retry_succ n ctx iter w f hf he hb hl h0e h0i h0m, hN]
      rfl
    · simp [h1, h0, List.replicate_succ]
    · simp [h2]

/-- One round of the drain loop whose `Next` returns true. -/
theorem drainLoop_step_true (ctx : κ) (fuel : Nat) (iter : Iterator T σ κ) (w : σ)
    (acc : List T) (log : List (FetchResult T)) (o : NextOutcome T σ κ) (x : T) (t : List T)
    (hN : Next fuel ctx iter w = some o) (hok : o.ok = true) (hb : o.iter.batch = x :: t) :
    drainLoop ctx (fuel + 1) iter w acc log =
      drainLoop ctx fuel o.iter o.world (acc ++ [x]) (log ++ o.fetched) := by
  simp only [drainLoop, hN, hok, Value_of_cons o.iter x t hb, if_true]

/-- The round of the drain loop whose `Next` returns false. -/
theorem drainLoop_step_false (ctx : κ) (fuel : Nat) (iter : Iterator T σ κ) (w : σ)
    (acc : List T) (log : List (FetchResult T)) (o : NextOutcome T σ κ)
    (hN : Next fuel ctx iter w = some o) (hok : o.ok = false) :
    drainLoop ctx (fuel + 1) iter w acc log =
      DrainResult.returned acc (Error o.iter) o.iter o.world (log ++ o.fetched) := by
  simp [drainLoop, hN, hok]

/-- A drain that returns within a budget returns the same with a larger one. -/
theorem drainLoop_mono_succ (ctx : κ) (fuel : Nat) (iter : Iterator T σ κ) (w : σ)
    (acc : List T) (log : List (FetchResult T)) (a : List T) (b : Option GoError)
    (c : Iterator T σ κ) (d : σ) (e : List (FetchResult T))
    (h : drainLoop ctx fuel iter w acc log = DrainResult.returned a b c d e) :
    drainLoop ctx (fuel + 1) iter w acc log = DrainResult.returned a b c d e := by
  induction fuel generalizing iter w acc log with
  | zero => simp [drainLoop] at h
  | succ n ih =>
    cases hN : Next n ctx iter w with
    | none => simp [drainLoop, hN] at h
    | some o =>
      have hN1 := Next_mono_succ ctx n iter w o hN
      rcases Next_ok_batch ctx n iter w o hN with ⟨hok, hb⟩ | ⟨hok, hb⟩
      · cases hbb : o.iter.batch with
        | nil => exact absurd hbb hb
        | cons x t =>
          rw [drainLoop_step_true ctx n iter w acc log o x t hN hok hbb] at h
          rw [drainLoop_step_true ctx (n + 1) iter w acc log o x t hN1 hok hbb]
          exact ih _ _ _ _ h
      · rw [drainLoop_step_false ctx n iter w acc log o hN hok] at h
        rw [drainLoop_step_false ctx (n + 1) iter w acc log o hN1 hok]
        exact h

theorem drainLoop_mono (ctx : κ) (fuel k : Nat) (iter : Iterator T σ κ) (w : σ)
    (acc : List T) (log : List (FetchResult T)) (a : List T) (b : Option GoError)
    (c : Iterator T σ κ) (d : σ) (e : List (FetchResult T))
    (h : drainLoop ctx fuel iter w acc log = DrainResult.returned a b c d e) :
    drainLoop ctx (fuel + k) iter w acc log = DrainResult.returned a b c d e := by
  induction k with
  | zero => exact h
  | succ k ih => exact drainLoop_mono_succ ctx (fuel + k) iter w acc log a b c d e ih

/-- Draining the buffered items: with `x` current and `t` behind it, `t.length`
rounds append `t` and leave a one-item batch, without fetching. -/
theorem drainLoop_buffered (ctx : κ) (f : NextBatchFunction T σ κ) (il : Bool) (w : σ)
    (log : List (FetchResult T)) (t : List T) (x : T) (fuel : Nat) (acc : List T) :
    ∃ z, drainLoop ctx (t.length + fuel)
        { NextBatchFunc := some f, batch := x :: t, lastError := none, isLastBatch := il }
        w acc log =
      drainLoop ctx fuel
        { NextBatchFunc := some f, batch := [z], lastError := none, isLastBatch := il }
        w (acc ++ t) log := by
  induction t generalizing x acc with
  | nil => exact ⟨x, by simp⟩
  | cons y t ih =>
    obtain ⟨z, hz⟩ := ih y (acc ++ [y])
    refine ⟨z, ?_⟩
    have hN := Next_buffered (t.length + fuel) ctx
      ({ NextBatchFunc := some f, batch := x :: y :: t, lastError := none,
         isLastBatch := il } : Iterator T σ κ) w f rfl rfl (by simp)
    have hfuel : (y :: t).length + fuel = (t.length + fuel) + 1 := by simp; omega
    rw [hfuel, drainLoop_step_true ctx _ _ w acc log _ y t hN rfl (by simp)]
    simpa using hz

/-- The last round after the last batch: at most one item is left, `Next` returns
false and the drain returns without error. -/
theorem drainLoop_last (ctx : κ) (f : NextBatchFunction T σ κ) (w : σ)
    (log : List (FetchResult T)) (b : List T) (hb : b.length ≤ 1) (fuel : Nat) (acc : List T) :
    drainLoop ctx (fuel + 1)
        { NextBatchFunc := some f, batch := b, lastError := none, isLastBatch := true }
        w acc log =
      DrainResult.returned acc none
        { NextBatchFunc := some f, batch := [], lastError := none, isLastBatch := true }
        w log := by
  have hN := Next_last fuel ctx
    ({ NextBatchFunc := some f, batch := b, lastError := none,
       isLastBatch := true } : Iterator T σ κ) w f rfl rfl hb rfl
  rw [drainLoop_step_false ctx fuel _ w acc log _ hN rfl]
  simp [Error]

/-- Draining a freshly fetched last batch `x :: t`. -/
theorem drainLoop_last_batch (ctx : κ) (f : NextBatchFunction T σ κ) (w : σ)
    (log : List (FetchResult T)) (x : T) (t : List T) (acc : List T) :
    drainLoop ctx (t.length + 1)
        { NextBatchFunc := some f, batch := x :: t, lastError := none, isLastBatch := true }
        w acc log =
      DrainResult.returned (acc ++ t) none
        { NextBatchFunc := some f, batch := [], lastError := none, isLastBatch := true }
        w log := by
  obtain ⟨z, hz⟩ := drainLoop_buffered ctx f true w log t x 1 acc
  rw [hz]
  exact drainLoop_last ctx f w log [z] (by simp) 0 (acc ++ t)

/-- A fetch that answers `nil, true, nil` costs the drain one more unit of budget
and is otherwise invisible. -/
theorem drainLoop_skip (ctx : κ) (f : NextBatchFunction T σ κ) (iter : Iterator T σ κ) (w : σ)
    (hf : iter.NextBatchFunc = some f) (he : iter.lastError = none)
    (hb : iter.batch.length ≤ 1) (hl : iter.isLastBatch = false)
    (hr : (f ctx w).1.err = none) (hi : (f ctx w).1.items = [])
    (hm : (f ctx w).1.hasMoreItems = true)
    (n : Nat) (acc : List T) (log : List (FetchResult T)) (a : List T) (b : Option GoError)
    (c : Iterator T σ κ) (d : σ) (e : List (FetchResult T))
    (h : drainLoop ctx n
        { NextBatchFunc := some f, batch := [], lastError := none, isLastBatch := false }
        (f ctx w).2 acc (log ++ [(f ctx w).1]) = DrainResult.returned a b c d e) :
    drainLoop ctx (n + 1) iter w acc log = DrainResult.returned a b c d e := by
  cases n with
  | zero => simp [drainLoop] at h
  | succ m =>
    cases hN : Next m ctx
        ({ NextBatchFunc := some f, batch := [], lastError := none,
           isLastBatch := false } : Iterator T σ κ) (f ctx w).2 with
    | none => simp [drainLoop, hN] at h
    | some o =>
      have hN1 : Next (m + 1) ctx iter w =
          some { o with fetched := (f ctx w).1 :: o.fetched } := by
        rw [Next_fetch_retry_succ m ctx iter w f hf he hb hl hr hi hm, hN]
        rfl
      rcases Next_ok_batch ctx m _ _ o hN with ⟨hok, hbo⟩ | ⟨hok, hbo⟩
      · cases hbb : o.iter.batch with
        | nil => exact absurd hbb hbo
        | cons x t =>
          rw [drainLoop_step_true ctx m _ _ acc _ o x t hN hok hbb] at h
          rw [drainLoop_step_true ctx (m + 1) iter w acc log _ x t hN1 hok hbb]
          have := drainLoop_mono_succ ctx m _ _ _ _ a b c d e h
          simpa using this
      · rw [drainLoop_step_false ctx m _ _ acc _ o hN hok] at h
        rw [drainLoop_step_false ctx (m + 1) iter w acc log _ hN1 hok]
        simpa using h

/-- Draining a script: from an active state with at most one item in the batch,
with the results `pre` (all `hasMoreItems = true`, no error) and then `last`
(`hasMoreItems = false`, no error) still to come, the drain appends exactly their
items and returns without error, leaving the rest of the script untouched. -/
theorem drainLoop_script (ctx : κ) (last : FetchResult T) (rest : List (FetchResult T))
    (hlm : last.hasMoreItems = false) (hle : last.err = none)
    (pre : List (FetchResult T)) (hpre : ∀ r ∈ pre, r.hasMoreItems = true ∧ r.err = none)
    (b : List T) (hb : b.length ≤ 1) (acc : List T) (log : List (FetchResult T)) :
    drainLoop ctx (drainFuel pre last)
        { NextBatchFunc := some scriptFunc, batch := b, lastError := none,
          isLastBatch := false }
        (pre ++ last :: rest) acc log =
      DrainResult.returned (acc ++ (pre.map FetchResult.items).flatten ++ last.items) none
        { NextBatchFunc := some scriptFunc, batch := [],
          lastError := if last.items.isEmpty then some GoError.EOF else none,
          isLastBatch := true }
        rest (log ++ pre ++ [last]) := by
  induction pre generalizing b acc log with
  | nil =>
    cases hits : last.items with
    | nil =>
      have hN : Next 0 ctx
          ({ NextBatchFunc := some scriptFunc, batch := b, lastError := none,
             isLastBatch := false } : Iterator T (List (FetchResult T)) κ)
          (last :: rest) =
          some { ok := false
                 iter := { NextBatchFunc := some scriptFunc, batch := [],
                           lastError := some GoError.EOF, isLastBatch := true }
                 world := rest
                 fetched := [last] } :=
        Next_fetch_eof 0 ctx _ _ scriptFunc rfl rfl hb rfl hle hits hlm
      have hfuel : drainFuel [] last = 0 + 1 := by simp [drainFuel, hits]
      rw [hfuel, List.nil_append, drainLoop_step_false ctx 0 _ _ acc log _ hN rfl]
      simp [Error]
    | cons x t =>
      have hN : Next (t.length + 1) ctx
          ({ NextBatchFunc := some scriptFunc, batch := b, lastError := none,
             isLastBatch := false } : Iterator T (List (FetchResult T)) κ)
          (last :: rest) =
          some { ok := true
                 iter := { NextBatchFunc := some scriptFunc, batch := x :: t,
                           lastError := none, isLastBatch := true }
                 world := rest
                 fetched := [last] } := by
        rw [Next_fetch_items (t.length + 1) ctx _ (last :: rest) scriptFunc rfl rfl hb rfl hle
          (by simp [scriptFunc, hits])]
        simp [scriptFunc, hits, hlm]
      have hfuel : drainFuel [] last = (t.length + 1) + 1 := by simp [drainFuel, hits]
      rw [hfuel, List.nil_append,
        drainLoop_step_true ctx (t.length + 1) _ _ acc log _ x t hN rfl rfl]
      rw [drainLoop_last_batch ctx scriptFunc rest (log ++ [last]) x t (acc ++ [x])]
      simp
  | cons p pre ih =>
    have hp := hpre p (List.mem_cons_self _ _)
    have hpre2 : ∀ r ∈ pre, r.hasMoreItems = true ∧ r.err = none :=
      fun r hr => hpre r (List.mem_cons_of_mem _ hr)
    cases hits : p.items with
    | nil =>
      have hfuel : drainFuel (p :: pre) last = drainFuel pre last + 1 := by
        simp [drainFuel, hits]; omega
      rw [hfuel]
      apply drainLoop_skip ctx scriptFunc _ (p :: pre ++ last :: rest) rfl rfl hb rfl hp.2
        hits hp.1
      have := ih hpre2 [] (by simp) acc (log ++ [p])
      simpa [scriptFunc, hits] using this
    | cons x t =>
      have hN : Next (t.length + (drainFuel pre last + 1)) ctx
          ({ NextBatchFunc := some scriptFunc, batch := b, lastError := none,
             isLastBatch := false } : Iterator T (List (FetchResult T)) κ)
          (p :: pre ++ last :: rest) =
          some { ok := true
                 iter := { NextBatchFunc := some scriptFunc, batch := x :: t,
                           lastError := none, isLastBatch := false }
                 world := pre ++ last :: rest
                 fetched := [p] } := by
        rw [Next_fetch_items _ ctx _ (p :: pre ++ last :: rest) scriptFunc rfl rfl hb rfl hp.2
          (by simp [scriptFunc, hits])]
        simp [scriptFunc, hits, hp.1]
      have hfuel : drainFuel (p :: pre) last = (t.length + (drainFuel pre last + 1)) + 1 := by
        simp [drainFuel, hits]; omega
      rw [hfuel, drainLoop_step_true ctx _ _ _ acc log _ x t hN rfl rfl]
      obtain ⟨z, hz⟩ := drainLoop_buffered ctx scriptFunc false (pre ++ last :: rest)
        (log ++ [p]) t x (drainFuel pre last + 1) (acc ++ [x])
      rw [hz]
      have := drainLoop_mono_succ ctx _ _ _ _ _ _ _ _ _ _
        (ih hpre2 [z] (by simp) (acc ++ [x] ++ t) (log ++ [p]))
      simpa [hits] using this

theorem Next_skips_empty_batches_witness :
    (∀ i, i < 2 →
        (scriptFunc () (fetchWorld scriptFunc () i scriptTwoEmpty)).1 = emptyMore) ∧
      (∃ o, Next 2 () (Iterator.new (some scriptFunc)) scriptTwoEmpty = some o ∧
        o.fetched = List.replicate 2 emptyMore ++
          [{ items := ["D", "E", "F"], hasMoreItems := true, err := none }] ∧
        o.fetched.length = 2 + 1 ∧
        o.world = fetchWorld scriptFunc () (2 + 1) scriptTwoEmpty ∧
        o.iter.NextBatchFunc = some scriptFunc ∧ o.iter.isLastBatch = (!true) ∧
        ((none : Option GoError) ≠ none →
          o.ok = false ∧ o.iter.batch = [] ∧ o.iter.lastError = none) ∧
        ((none : Option GoError) = none → ["D", "E", "F"] = [] →
          o.ok = false ∧ o.iter.batch = [] ∧ o.iter.lastError = some GoError.EOF) ∧
        ((none : Option GoError) = none → ["D", "E", "F"] ≠ [] →
          o.ok = true ∧ o.iter.batch = ["D", "E", "F"] ∧ o.iter.lastError = none ∧
            Value o.iter = ["D", "E", "F"].head?)) :=
  have hempty : ∀ i, i < 2 →
      (scriptFunc () (fetchWorld scriptFunc () i scriptTwoEmpty)).1 = emptyMore := by
    intro i hi
    interval_cases i <;> rfl
  ⟨hempty,
    Next_skips_empty_batches () scriptFunc 2 (Iterator.new (some scriptFunc)) scriptTwoEmpty
      rfl rfl (Nat.zero_le 1) rfl hempty
      { items := ["D", "E", "F"], hasMoreItems := true, err := none } rfl
      (Or.inl (List.cons_ne_nil _ _)) 2 (Nat.le_refl 2)⟩

/-- C1: for a script of error-free fetch results in which `last` is the first one
with `hasMoreItems = false` (all of `pre` before it have `hasMoreItems = true`;
batches may be empty), draining a fresh iterator returns exactly the items of
`pre` and `last` concatenated in order, every one read through a non-nil `Value`,
after fetching exactly `pre` and `last`. -/
theorem drain_observes_concatenation (ctx : κ) (pre : List (FetchResult T))
    (last : FetchResult T) (rest : List (FetchResult T))
    (hpre : ∀ r ∈ pre, r.hasMoreItems = true ∧ r.err = none)
    (hlm : last.hasMoreItems = false) (hle : last.err = none)
    (fuel : Nat) (hfuel : drainFuel pre last ≤ fuel) :
    ∃ final, getAllValuesFromIter fuel ctx (Iterator.new (some scriptFunc))
        (pre ++ last :: rest) =
      DrainResult.returned ((pre.map FetchResult.items).flatten ++ last.items) none final rest
        (pre ++ [last]) := by
  obtain ⟨k, rfl⟩ : ∃ k, fuel = drainFuel pre last + k := ⟨fuel - drainFuel pre last, by omega⟩
  have h := drainLoop_script ctx last rest hlm hle pre hpre [] (by simp) [] []
  have h2 := drainLoop_mono ctx _ k _ _ _ _ _ _ _ _ _ h
  exact ⟨_, by simpa [getAllValuesFromIter, Iterator.new] using h2⟩

theorem drain_observes_concatenation_witness :
    (∀ r ∈ scriptEmptyResponse, r.hasMoreItems = true ∧ r.err = none) ∧
      drainFuel scriptEmptyResponse scriptDefault ≤ 10 ∧
      ∃ final, getAllValuesFromIter 10 () (Iterator.new (some scriptFunc))
          (scriptEmptyResponse ++ scriptDefault :: []) =
        DrainResult.returned
          ((scriptEmptyResponse.map FetchResult.items).flatten ++ scriptDefault.items) none
          final [] (scriptEmptyResponse ++ [scriptDefault]) :=
  have hpre : ∀ r ∈ scriptEmptyResponse, r.hasMoreItems = true ∧ r.err = none := by
    decide
  ⟨hpre, by decide,
    drain_observes_concatenation () scriptEmptyResponse scriptDefault [] hpre rfl rfl 10
      (by decide)⟩

/-- C8: for an error-free script ending in `last` (the first result with
`hasMoreItems = false`), the drain ends with `Error` nil whether `last` is empty
(the `io.EOF` sentinel is latched) or not (nothing is latched); in both cases
`Value` is nil and every further `Next` returns false, with `Value` and `Error`
still nil and without fetching. -/
theorem clean_exhaustion_not_an_error (ctx : κ) (pre : List (FetchResult T))
    (last : FetchResult T) (rest : List (FetchResult T))
    (hpre : ∀ r ∈ pre, r.hasMoreItems = true ∧ r.err = none)
    (hlm : last.hasMoreItems = false) (hle : last.err = none)
    (fuel : Nat) (hfuel : drainFuel pre last ≤ fuel) :
    ∃ items final, getAllValuesFromIter fuel ctx (Iterator.new (some scriptFunc))
        (pre ++ last :: rest) =
        DrainResult.returned items none final rest (pre ++ [last]) ∧
      Error final = none ∧ Value final = none ∧
      final.lastError = (if last.items.isEmpty then some GoError.EOF else none) ∧
      ∀ (fuel2 : Nat) (ctx2 : κ) (w2 : List (FetchResult T)),
        ∃ o, Next fuel2 ctx2 final w2 = some o ∧ o.ok = false ∧
          Value o.iter = none ∧ Error o.iter = none ∧ o.fetched = [] ∧ o.world = w2 := by
  obtain ⟨k, rfl⟩ : ∃ k, fuel = drainFuel pre last + k := ⟨fuel - drainFuel pre last, by omega⟩
  have h := drainLoop_script ctx last rest hlm hle pre hpre [] (by simp) [] []
  have h2 := drainLoop_mono ctx _ k _ _ _ _ _ _ _ _ _ h
  refine ⟨_, _, by simpa [getAllValuesFromIter, Iterator.new] using h2, ?_, ?_, rfl, ?_⟩
  · cases hE : last.items.isEmpty <;> simp [Error, hE]
  · exact Value_of_nil _ rfl
  · intro fuel2 ctx2 w2
    cases hE : last.items.isEmpty with
    | true =>
      refine ⟨_, Next_latched fuel2 ctx2 _ w2 scriptFunc rfl (by simp [hE]), rfl, ?_, ?_,
        rfl, rfl⟩
      · exact Value_of_nil _ rfl
      · simp [Error, hE]
    | false =>
      refine ⟨_, Next_last fuel2 ctx2 _ w2 scriptFunc rfl (by simp [hE]) (by simp) rfl, rfl,
        ?_, ?_, rfl, rfl⟩
      · exact Value_of_nil _ rfl
      · simp [Error, hE]

theorem clean_exhaustion_not_an_error_witness :
    (∀ r ∈ scriptThreeBatches, r.hasMoreItems = true ∧ r.err = none) ∧
      drainFuel scriptThreeBatches scriptDefault ≤ 12 ∧
      ∃ items final, getAllValuesFromIter 12 () (Iterator.new (some scriptFunc))
          (scriptThreeBatches ++ scriptDefault :: []) =
          DrainResult.returned items none final [] (scriptThreeBatches ++ [scriptDefault]) ∧
        Error final = none ∧ Value final = none ∧
        final.lastError = (if scriptDefault.items.isEmpty then some GoError.EOF else none) ∧
        ∀ (fuel2 : Nat) (ctx2 : Unit) (w2 : List (FetchResult String)),
          ∃ o, Next fuel2 ctx2 final w2 = some o ∧ o.ok = false ∧
            Value o.iter = none ∧ Error o.iter = none ∧ o.fetched = [] ∧ o.world = w2 :=
  have hpre : ∀ r ∈ scriptThreeBatches, r.hasMoreItems = true ∧ r.err = none := by
    decide
  ⟨hpre, by decide,
    clean_exhaustion_not_an_error () scriptThreeBatches scriptDefault [] hpre rfl rfl 12
      (by decide)⟩

/-- C10: `StaticSlice s` returns `s, false, nil` on every invocation and has no
error path; draining a fresh iterator over it returns exactly `s` (also when `s`
is empty) with `Error` nil, after invoking the adapter exactly once. -/
theorem drain_StaticSlice (ctx : κ) (w : σ) (s : List T) (fuel : Nat) :
    StaticSlice s ctx w = ({ items := s, hasMoreItems := false, err := none }, w) ∧
    ∃ final, getAllValuesFromIter (s.length + 1 + fuel) ctx
        (Iterator.new (some (StaticSlice s))) w =
      DrainResult.returned s none final w
        [{ items := s, hasMoreItems := false, err := none }] := by
  refine ⟨rfl, ?_⟩
  cases s with
  | nil =>
    have hN : Next fuel ctx (Iterator.new (some (StaticSlice ([] : List T)))) w =
        some { ok := false
               iter := { NextBatchFunc := some (StaticSlice []), batch := [],
                         lastError := some GoError.EOF, isLastBatch := true }
               world := w
               fetched := [{ items := [], hasMoreItems := false, err := none }] } :=
      Next_fetch_eof fuel ctx _ w (StaticSlice []) rfl rfl (by simp [Iterator.new]) rfl
        rfl rfl rfl
    have hfuel : ([] : List T).length + 1 + fuel = fuel + 1 := by simp; omega
    refine ⟨{ NextBatchFunc := some (StaticSlice []), batch := [],
              lastError := some GoError.EOF, isLastBatch := true }, ?_⟩
    rw [hfuel, getAllValuesFromIter, drainLoop_step_false ctx fuel _ w [] [] _ hN rfl]
    simp [Error]
  | cons x t =>
    have hN : Next (t.length + 1 + fuel) ctx (Iterator.new (some (StaticSlice (x :: t)))) w =
        some { ok := true
               iter := { NextBatchFunc := some (StaticSlice (x :: t)), batch := x :: t,
                         lastError := none, isLastBatch := true }
               world := w
               fetched := [{ items := x :: t, hasMoreItems := false, err := none }] } :=
      Next_fetch_items _ ctx _ w (StaticSlice (x :: t)) rfl rfl (by simp [Iterator.new]) rfl
        rfl (List.cons_ne_nil x t)
    have hfuel : (x :: t).length + 1 + fuel = (t.length + 1 + fuel) + 1 := by simp; omega
    refine ⟨{ NextBatchFunc := some (StaticSlice (x :: t)), batch := [],
              lastError := none, isLastBatch := true }, ?_⟩
    rw [hfuel, getAllValuesFromIter, drainLoop_step_true ctx _ _ w [] [] _ x t hN rfl rfl]
    have := drainLoop_mono ctx (t.length + 1) fuel _ w ([] ++ [x])
      ([] ++ [{ items := x :: t, hasMoreItems := false, err := none }]) _ _ _ _ _
      (drainLoop_last_batch ctx (StaticSlice (x :: t)) w _ x t _)
    simpa using this

/-- C11: with a nil limiter the closure of `RateLimit` never invokes the wrapped
function (it makes no call at all and leaves the closure state alone): every
invocation returns `nil, false, errors.New("limiter cannot be nil")`; an iterator
over it returns false on the first `Next`, with `Value` nil and `Error` carrying
the message "limiter cannot be nil". -/
theorem RateLimit_nil_limiter (f : NextBatchFunction T σ κ) (ctx : κ) (w : σ) (fuel : Nat) :
    RateLimitTraced none f ctx w =
        (({ items := [], hasMoreItems := false,
            err := some (errorsNew "limiter cannot be nil") }, w), []) ∧
      RateLimit none f ctx w =
        ({ items := [], hasMoreItems := false,
           err := some (errorsNew "limiter cannot be nil") }, w) ∧
      ∃ o, Next fuel ctx (Iterator.new (some (RateLimit none f))) w = some o ∧
        o.ok = false ∧ Value o.iter = none ∧
        (Error o.iter).map GoError.message = some "limiter cannot be nil" ∧
        o.world = w ∧
        o.fetched = [{ items := [], hasMoreItems := false,
                       err := some (errorsNew "limiter cannot be nil") }] := by
  refine ⟨rfl, rfl, _, Next_fetch_err fuel ctx _ w (RateLimit none f) rfl rfl
    (by simp [Iterator.new]) rfl (by simp [RateLimit, RateLimitTraced]), rfl, ?_, ?_, rfl, rfl⟩
  · exact Value_of_nil _ rfl
  · simp [Error, RateLimit, RateLimitTraced, errorsNew, GoError.message]

/-- C12: with a non-nil limiter whose `Wait` fails with error `e`, the closure of
`RateLimit` returns `nil, false, e` after that one call of `Wait`, and does not
invoke the wrapped function. -/
theorem RateLimit_wait_fails (l : Limiter σ κ) (f : NextBatchFunction T σ κ) (ctx : κ)
    (w : σ) (e : GoError) (he : (l.Wait ctx w).1 = some e) :
    RateLimitTraced (some l) f ctx w =
        (({ items := [], hasMoreItems := false, err := some e }, (l.Wait ctx w).2),
          [RateEvent.wait ctx]) ∧
      RateLimit (some l) f ctx w =
        ({ items := [], hasMoreItems := false, err := some e }, (l.Wait ctx w).2) := by
  have h1 : RateLimitTraced (some l) f ctx w =
      (({ items := [], hasMoreItems := false, err := some e }, (l.Wait ctx w).2),
        [RateEvent.wait ctx]) := by
    unfold RateLimitTraced
    cases hW : l.Wait ctx w with
    | mk a w1 =>
      rw [hW] at he
      simp only at he
      subst he
      simp [hW]
  exact ⟨h1, by simp [RateLimit, h1]⟩

theorem RateLimit_wait_fails_witness :
    (cancelledLimiter.Wait () ()).1 = some (errorsNew "context canceled") ∧
      (RateLimitTraced (some cancelledLimiter) (StaticSlice ["A"]) () () =
          (({ items := [], hasMoreItems := false,
              err := some (errorsNew "context canceled") },
            (cancelledLimiter.Wait () ()).2), [RateEvent.wait ()]) ∧
        RateLimit (some cancelledLimiter) (StaticSlice ["A"]) () () =
          ({ items := [], hasMoreItems := false,
             err := some (errorsNew "context canceled") },
            (cancelledLimiter.Wait () ()).2)) :=
  ⟨rfl, RateLimit_wait_fails cancelledLimiter (StaticSlice ["A"]) () ()
    (errorsNew "context canceled") rfl⟩

/-- A call of `Next` that fetches starts from an active state with at most one
item in the batch. -/
theorem Next_fetches_only_when_short (ctx : κ) (fuel : Nat) (iter : Iterator T σ κ) (w : σ)
    (o : NextOutcome T σ κ) (h : Next fuel ctx iter w = some o) :
    o.fetched ≠ [] →
      iter.batch.length ≤ 1 ∧ iter.NextBatchFunc ≠ none ∧ iter.lastError = none ∧
        iter.isLastBatch = false := by
  refine Next_rule ctx
    (fun _ iter _ o => o.fetched ≠ [] →
      iter.batch.length ≤ 1 ∧ iter.NextBatchFunc ≠ none ∧ iter.lastError = none ∧
        iter.isLastBatch = false)
    ?_ ?_ ?_ ?_ ?_ ?_ ?_ ?_ fuel iter w o h
  · intro n iter w hf hne; exact absurd rfl hne
  · intro n iter w f hf he hne; exact absurd rfl hne
  · intro n iter w f hf he hb hne; exact absurd rfl hne
  · intro n iter w f hf he hb hl hne; exact absurd rfl hne
  · intro n iter w f hf he hb hl hr _; exact ⟨hb, by simp [hf], he, hl⟩
  · intro n iter w f hf he hb hl hr hi hm _; exact ⟨hb, by simp [hf], he, hl⟩
  · intro n iter w f hf he hb hl hr hi _; exact ⟨hb, by simp [hf], he, hl⟩
  · intro n iter w f hf he hb hl hr hi hm o _ _; exact ⟨hb, by simp [hf], he, hl⟩

/-- C15: with a fetch function configured, no error latched and more than one item
in the batch, `Next` returns true, the batch becomes its tail (one item fewer,
`Value` is the former second item), nothing is fetched, and `lastError` and
`isLastBatch` are unchanged; and any call of `Next` that does fetch starts from a
batch of at most one item. -/
theorem Next_lazy (fuel : Nat) (ctx : κ) (iter : Iterator T σ κ) (w : σ)
    (f : NextBatchFunction T σ κ) (hf : iter.NextBatchFunc = some f)
    (he : iter.lastError = none) (hb : 1 < iter.batch.length) :
    (∃ o, Next fuel ctx iter w = some o ∧ o.ok = true ∧
        o.iter.batch = iter.batch.tail ∧ o.iter.batch.length = iter.batch.length - 1 ∧
        Value o.iter = iter.batch[1]? ∧ o.fetched = [] ∧ o.world = w ∧
        o.iter.lastError = iter.lastError ∧ o.iter.isLastBatch = iter.isLastBatch ∧
        o.iter.NextBatchFunc = iter.NextBatchFunc) ∧
      ∀ (fuel2 : Nat) (ctx2 : κ) (iter2 : Iterator T σ κ) (w2 : σ) (o2 : NextOutcome T σ κ),
        Next fuel2 ctx2 iter2 w2 = some o2 → o2.fetched ≠ [] → iter2.batch.length ≤ 1 := by
  refine ⟨⟨_, Next_buffered fuel ctx iter w f hf he hb, rfl, ?_, ?_, ?_, rfl, rfl, rfl, rfl,
    rfl⟩, ?_⟩
  · simp
  · simp
  · cases hbb : iter.batch with
    | nil => simp [hbb] at hb
    | cons x t =>
      cases t with
      | nil => simp [hbb] at hb
      | cons y t => simp [Value]
  · intro fuel2 ctx2 iter2 w2 o2 h hne
    exact (Next_fetches_only_when_short ctx2 fuel2 iter2 w2 o2 h hne).1

theorem Next_lazy_witness :
    (iterABCAt 0).NextBatchFunc = some (StaticSlice ["A", "B", "C"]) ∧
      (iterABCAt 0).lastError = none ∧ 1 < (iterABCAt 0).batch.length ∧
      ((∃ o, Next 0 () (iterABCAt 0) () = some o ∧ o.ok = true ∧
          o.iter.batch = (iterABCAt 0).batch.tail ∧
          o.iter.batch.length = (iterABCAt 0).batch.length - 1 ∧
          Value o.iter = (iterABCAt 0).batch[1]? ∧ o.fetched = [] ∧ o.world = () ∧
          o.iter.lastError = (iterABCAt 0).lastError ∧
          o.iter.isLastBatch = (iterABCAt 0).isLastBatch ∧
          o.iter.NextBatchFunc = (iterABCAt 0).NextBatchFunc) ∧
        ∀ (fuel2 : Nat) (ctx2 : Unit) (iter2 : Iterator String Unit Unit) (w2 : Unit)
          (o2 : NextOutcome String Unit Unit),
          Next fuel2 ctx2 iter2 w2 = some o2 → o2.fetched ≠ [] → iter2.batch.length ≤ 1) :=
  ⟨rfl, rfl, by decide,
    Next_lazy 0 () (iterABCAt 0) () (StaticSlice ["A", "B", "C"]) rfl rfl (by decide)⟩

/-- Two results of the same run are the same result. -/
theorem runCalls_unique (fuel : Nat) (cs : List (Call T σ κ)) (iter : Iterator T σ κ) (w : σ)
    (r1 r2 : RunOutcome T σ κ) (h1 : runCalls fuel cs iter w = some r1)
    (h2 : runCalls fuel cs iter w = some r2) : r1 = r2 := by
  rw [h1] at h2
  exact Option.some.inj h2

/-- The configuration error, once latched, is the value of `lastError` after any
calls: a later `Next` without fetch function latches it again, a later `Next` with
one leaves it. -/
theorem runCalls_config_error (fuel : Nat) (cs : List (Call T σ κ)) (iter : Iterator T σ κ)
    (w : σ)
    (he : iter.lastError = some (errorsNew "iterator has no next batch function")) :
    ∃ ro, runCalls fuel cs iter w = some ro ∧
      ro.iter.lastError = some (errorsNew "iterator has no next batch function") := by
  induction cs generalizing iter with
  | nil => exact ⟨_, rfl, he⟩
  | cons c cs ih =>
    cases c with
    | setNextBatchFunc g =>
      obtain ⟨ro, h1, h2⟩ := ih { iter with NextBatchFunc := g } he
      exact ⟨ro, by simpa [runCalls] using h1, h2⟩
    | next ctx =>
      cases hf : iter.NextBatchFunc with
      | none =>
        obtain ⟨ro, h1, h2⟩ :=
          ih { iter with
                batch := []
                lastError := some (errorsNew "iterator has no next batch function") } rfl
        exact ⟨_, runCalls_next fuel ctx cs iter w _ ro (Next_nil fuel ctx iter w hf) h1, h2⟩
      | some f =>
        obtain ⟨ro, h1, h2⟩ := ih { iter with batch := [] } he
        exact ⟨_, runCalls_next fuel ctx cs iter w _ ro
          (Next_latched fuel ctx iter w f hf (by simp [he])) h1, h2⟩

/-- C17: after one `Next` without fetch function, whatever the caller then assigns
to `NextBatchFunc` and however often it calls `Next`, every `Next` returns false,
no fetch function is invoked, and `Error` keeps returning the error with message
"iterator has no next batch function". -/
theorem config_error_permanent (fuel : Nat) (ctx : κ) (batch : List T)
    (lastError : Option GoError) (isLastBatch : Bool) (w : σ) (cs : List (Call T σ κ)) :
    ∃ ro, runCalls fuel (Call.next ctx :: cs)
          ({ NextBatchFunc := none, batch := batch, lastError := lastError,
             isLastBatch := isLastBatch } : Iterator T σ κ) w = some ro ∧
      ro.returns = List.replicate (cs.countP Call.isNext + 1) false ∧
      ro.fetched = [] ∧ ro.world = w ∧
      Error ro.iter = some (errorsNew "iterator has no next batch function") ∧
      (Error ro.iter).map GoError.message = some "iterator has no next batch function" := by
  have hN := Next_nil fuel ctx
    ({ NextBatchFunc := none, batch := batch, lastError := lastError,
       isLastBatch := isLastBatch } : Iterator T σ κ) w rfl
  obtain ⟨ro, h1, h2, h3, h4, _⟩ := runCalls_latched fuel cs
    ({ NextBatchFunc := none, batch := [],
       lastError := some (errorsNew "iterator has no next batch function"),
       isLastBatch := isLastBatch } : Iterator T σ κ) w (by simp)
  obtain ⟨ro2, k1, k2⟩ := runCalls_config_error fuel cs
    ({ NextBatchFunc := none, batch := [],
       lastError := some (errorsNew "iterator has no next batch function"),
       isLastBatch := isLastBatch } : Iterator T σ κ) w rfl
  have hEq : ro2 = ro := runCalls_unique fuel cs _ w ro2 ro k1 h1
  subst hEq
  have hE : Error ro2.iter = some (errorsNew "iterator has no next batch function") := by
    simp [Error, k2, errorsNew]
  refine ⟨_, runCalls_next fuel ctx cs _ w _ ro2 hN h1, ?_, ?_, h3, hE, ?_⟩
  · simp [h2, List.replicate_succ]
  · simp [h4]
  · rw [hE]; rfl

/-- After any returning `Next`, a latched error comes with an empty batch. -/
theorem Next_latched_batch_nil (ctx : κ) (fuel : Nat) (iter : Iterator T σ κ) (w : σ)
    (o : NextOutcome T σ κ) (h : Next fuel ctx iter w = some o) :
    o.iter.lastError ≠ none → o.iter.batch = [] := by
  refine Next_rule ctx (fun _ _ _ o => o.iter.lastError ≠ none → o.iter.batch = [])
    ?_ ?_ ?_ ?_ ?_ ?_ ?_ ?_ fuel iter w o h
  · intro n iter w hf _; rfl
  · intro n iter w f hf he _; rfl
  · intro n iter w f hf he hb hne; exact absurd he hne
  · intro n iter w f hf he hb hl _; rfl
  · intro n iter w f hf he hb hl hr _; rfl
  · intro n iter w f hf he hb hl hr hi hm _; rfl
  · intro n iter w f hf he hb hl hr hi hne; exact absurd rfl hne
  · intro n iter w f hf he hb hl hr hi hm o ho; exact ho

/-- The invariant "a latched error comes with an empty batch" is kept by every
sequence of calls. -/
theorem runCalls_latched_batch_nil (fuel : Nat) (cs : List (Call T σ κ))
    (iter : Iterator T σ κ) (w : σ) (ro : RunOutcome T σ κ)
    (hinv : iter.lastError ≠ none → iter.batch = [])
    (h : runCalls fuel cs iter w = some ro) :
    ro.iter.lastError ≠ none → ro.iter.batch = [] := by
  induction cs generalizing iter w ro with
  | nil =>
    simp only [runCalls, Option.some.injEq] at h
    subst h
    exact hinv
  | cons c cs ih =>
    cases c with
    | setNextBatchFunc g =>
      simp only [runCalls] at h
      exact ih { iter with NextBatchFunc := g } w ro hinv h
    | next ctx =>
      cases hN : Next fuel ctx iter w with
      | none => simp [runCalls, hN] at h
      | some o =>
        cases hR : runCalls fuel cs o.iter o.world with
        | none => simp [runCalls, hN, hR] at h
        | some r =>
          rw [runCalls_next fuel ctx cs iter w o r hN hR] at h
          simp only [Option.some.injEq] at h
          subst h
          exact ih o.iter o.world r (Next_latched_batch_nil ctx fuel iter w o hN) hR

/-- C18: in every state reached from the zero-value iterator by `Next` calls and
assignments to `NextBatchFunc`, a latched error (the `io.EOF` sentinel included)
comes with an empty batch and a nil `Value`; and when a `Next` from such a state
fetches a result carrying an error, `Value` is nil right after it and after any
further calls, whatever items came with the error. -/
theorem latched_error_implies_empty_batch (fuel : Nat) (cs : List (Call T σ κ)) (w : σ)
    (ro : RunOutcome T σ κ) (h : runCalls fuel cs (Iterator.new none) w = some ro) :
    (ro.iter.lastError ≠ none → ro.iter.batch = [] ∧ Value ro.iter = none) ∧
      ∀ (fuel2 : Nat) (ctx : κ) (o : NextOutcome T σ κ) (r : FetchResult T),
        Next fuel2 ctx ro.iter ro.world = some o → r ∈ o.fetched → r.err ≠ none →
          o.iter.batch = [] ∧ Value o.iter = none ∧
          ∀ (fuel3 : Nat) (cs2 : List (Call T σ κ)) (ro2 : RunOutcome T σ κ),
            runCalls fuel3 cs2 o.iter o.world = some ro2 →
              ro2.iter.batch = [] ∧ Value ro2.iter = none := by
  have hinv := runCalls_latched_batch_nil fuel cs (Iterator.new none) w ro
    (fun hne => absurd rfl hne) h
  refine ⟨fun hne => ⟨hinv hne, Value_of_nil _ (hinv hne)⟩, ?_⟩
  intro fuel2 ctx o r hN hr hre
  have hle : o.iter.lastError ≠ none := by
    rw [(Next_fetched_err ctx fuel2 ro.iter ro.world o hN r hr hre).1]
    exact hre
  have hb := Next_latched_batch_nil ctx fuel2 ro.iter ro.world o hN hle
  refine ⟨hb, Value_of_nil _ hb, ?_⟩
  intro fuel3 cs2 ro2 hR
  obtain ⟨ro3, k1, _, _, _, k5⟩ := runCalls_latched fuel3 cs2 o.iter o.world hle
  have hEq : ro3 = ro2 := runCalls_unique fuel3 cs2 _ _ ro3 ro2 k1 hR
  subst hEq
  have hb2 := runCalls_latched_batch_nil fuel3 cs2 o.iter o.world ro3 (fun _ => hb) hR k5
  exact ⟨hb2, Value_of_nil _ hb2⟩

theorem latched_error_implies_empty_batch_witness :
    runCalls 0 callsFailingFetch (Iterator.new none) () =
        some { returns := [false], iter := iterWithMoreDataFailed, world := (),
               fetched := [{ items := [], hasMoreItems := true,
                             err := some (errorsNew "some error") }] } ∧
      ((iterWithMoreDataFailed.lastError ≠ none →
          iterWithMoreDataFailed.batch = [] ∧ Value iterWithMoreDataFailed = none) ∧
        ∀ (fuel2 : Nat) (ctx : Unit) (o : NextOutcome String Unit Unit)
          (r : FetchResult String),
          Next fuel2 ctx iterWithMoreDataFailed () = some o → r ∈ o.fetched → r.err ≠ none →
            o.iter.batch = [] ∧ Value o.iter = none ∧
            ∀ (fuel3 : Nat) (cs2 : List (Call String Unit Unit))
              (ro2 : RunOutcome String Unit Unit),
              runCalls fuel3 cs2 o.iter o.world = some ro2 →
                ro2.iter.batch = [] ∧ Value ro2.iter = none) :=
  ⟨rfl,
    latched_error_implies_empty_batch 0 callsFailingFetch ()
      { returns := [false], iter := iterWithMoreDataFailed, world := (),
        fetched := [{ items := [], hasMoreItems := true,
                      err := some (errorsNew "some error") }] } rfl⟩

/-- C19: `Value` and `Error` are observers: any sequence of such calls returns, for
each call, what the method returns on the unchanged iterator (so repeated `Value`
calls return the same pointer), and leaves the iterator (batch, `lastError`,
`isLastBatch`, `NextBatchFunc`) and the closure state as they were, fetching
nothing; `Value` is the front of the batch; on a fresh iterator both are nil. -/
theorem observers_are_pure (obs : List Observer) (iter : Iterator T σ κ) (w : σ) :
    runObservers obs iter w = (obs.map (fun ob => (ob.call iter w).1), iter, w, []) ∧
      (Observer.Value.call iter w).1 = Observed.value iter.batch.head? ∧
      Value iter = iter.batch.head? ∧
      ∀ f : Option (NextBatchFunction T σ κ),
        Value (Iterator.new f) = none ∧ Error (Iterator.new f) = none := by
  have hV : Value iter = iter.batch.head? := by
    cases hb : iter.batch with
    | nil => simp [Value, hb]
    | cons x t => simp [Value, hb]
  refine ⟨?_, ?_, hV, fun f => ⟨rfl, rfl⟩⟩
  · induction obs with
    | nil => rfl
    | cons ob obs ih =>
      cases ob <;> simp [runObservers, Observer.call, ih]
  · simp [Observer.call, hV]

/-- Consuming buffered items: `n` calls of `Next` on a batch of more than `n` items
return true each, drop `n` items and fetch nothing. -/
theorem runCalls_buffered (fuel : Nat) (ctx : κ) (g : NextBatchFunction T σ κ) (il : Bool)
    (w : σ) (n : Nat) (b : List T) (hn : n < b.length) :
    runCalls fuel (List.replicate n (Call.next ctx))
        { NextBatchFunc := some g, batch := b, lastError := none, isLastBatch := il } w =
      some { returns := List.replicate n true
             iter := { NextBatchFunc := some g, batch := b.drop n, lastError := none,
                       isLastBatch := il }
             world := w
             fetched := [] } := by
  induction n generalizing b with
  | zero => simp [runCalls]
  | succ n ih =>
    have hN := Next_buffered fuel ctx
      ({ NextBatchFunc := some g, batch := b, lastError := none,
         isLastBatch := il } : Iterator T σ κ) w g rfl rfl (by show 1 < b.length; omega)
    have hR := ih (b.drop 1) (by simp; omega)
    rw [List.replicate_succ, runCalls_next fuel ctx _ _ w _ _ hN hR]
    simp [List.replicate_succ, Nat.add_comm]

/-- With at most one item in the batch, what an active iterator does next does not
depend on the batch. -/
theorem Next_short_batch (fuel : Nat) (ctx : κ) (g : NextBatchFunction T σ κ) (w : σ)
    (b : List T) (hb : b.length ≤ 1) :
    Next fuel ctx
        { NextBatchFunc := some g, batch := b, lastError := none, isLastBatch := false } w =
      Next fuel ctx (Iterator.new (some g)) w := by
  have h0 : (Iterator.new (some g) : Iterator T σ κ).batch.length ≤ 1 := by
    simp [Iterator.new]
  by_cases hr : (g ctx w).1.err = none
  · by_cases hi : (g ctx w).1.items = []
    · cases hm : (g ctx w).1.hasMoreItems with
      | true =>
        cases fuel with
        | zero =>
          rw [Next_fetch_retry_zero ctx _ w g rfl rfl hb rfl hr hi hm,
            Next_fetch_retry_zero ctx _ w g rfl rfl h0 rfl hr hi hm]
        | succ n =>
          rw [Next_fetch_retry_succ n ctx _ w g rfl rfl hb rfl hr hi hm,
            Next_fetch_retry_succ n ctx _ w g rfl rfl h0 rfl hr hi hm]
      | false =>
        rw [Next_fetch_eof fuel ctx _ w g rfl rfl hb rfl hr hi hm,
          Next_fetch_eof fuel ctx _ w g rfl rfl h0 rfl hr hi hm]
    · rw [Next_fetch_items fuel ctx _ w g rfl rfl hb rfl hr hi,
        Next_fetch_items fuel ctx _ w g rfl rfl h0 rfl hr hi]
  · rw [Next_fetch_err fuel ctx _ w g rfl rfl hb rfl hr,
      Next_fetch_err fuel ctx _ w g rfl rfl h0 rfl hr]

/-- A call of `Next` on an active iterator with at most one item in the batch
starts by invoking the configured fetch function on the current closure state. -/
theorem Next_first_fetch (ctx : κ) (fuel : Nat) (iter : Iterator T σ κ) (w : σ)
    (o : NextOutcome T σ κ) (h : Next fuel ctx iter w = some o) :
    ∀ g, iter.NextBatchFunc = some g → iter.lastError = none → iter.batch.length ≤ 1 →
      iter.isLastBatch = false → o.fetched.head? = some (g ctx w).1 := by
  refine Next_rule ctx
    (fun _ iter w o => ∀ g, iter.NextBatchFunc = some g → iter.lastError = none →
      iter.batch.length ≤ 1 → iter.isLastBatch = false → o.fetched.head? = some (g ctx w).1)
    ?_ ?_ ?_ ?_ ?_ ?_ ?_ ?_ fuel iter w o h
  · intro n iter w hf g hg; rw [hf] at hg; cases hg
  · intro n iter w f hf he g _ he2; exact absurd he2 he
  · intro n iter w f hf he hb g _ _ hb2; omega
  · intro n iter w f hf he hb hl g _ _ _ hl2; rw [hl] at hl2; cases hl2
  · intro n iter w f hf he hb hl hr g hg _ _ _
    rw [hf] at hg; cases hg; rfl
  · intro n iter w f hf he hb hl hr hi hm g hg _ _ _
    rw [hf] at hg; cases hg; rfl
  · intro n iter w f hf he hb hl hr hi g hg _ _ _
    rw [hf] at hg; cases hg; rfl
  · intro n iter w f hf he hb hl hr hi hm o _ g hg _ _ _
    rw [hf] at hg; cases hg; rfl

/-- The refill of an active iterator with at most one item in the batch: when the
configured fetch function answers `k` times `nil, true, nil` and then a decisive
result `r`, a `Next` with a budget of at least `k` self-calls returns with the fetch
log `k` times `nil, true, nil` and then `r`, and its return value, batch, error and
flag are those `r` gives. -/
theorem Next_refill (ctx : κ) (f : NextBatchFunction T σ κ) (k : Nat)
    (iter : Iterator T σ κ) (w : σ)
    (hf : iter.NextBatchFunc = some f) (he : iter.lastError = none)
    (hb : iter.batch.length ≤ 1) (hl : iter.isLastBatch = false)
    (hempty : ∀ i, i < k → (f ctx (fetchWorld f ctx i w)).1 = emptyMore)
    (r : FetchResult T) (hr : (f ctx (fetchWorld f ctx k w)).1 = r)
    (hdec : r.items ≠ [] ∨ r.hasMoreItems = false ∨ r.err ≠ none)
    (fuel : Nat) (hfuel : k ≤ fuel) :
    ∃ o, Next fuel ctx iter w = some o ∧
      o.fetched = List.replicate k emptyMore ++ [r] ∧ o.fetched.length = k + 1 ∧
      o.world = fetchWorld f ctx (k + 1) w ∧
      o.iter.NextBatchFunc = some f ∧ o.iter.isLastBatch = (!r.hasMoreItems) ∧
      (r.err ≠ none → o.ok = false ∧ o.iter.batch = [] ∧ o.iter.lastError = r.err) ∧
      (r.err = none → r.items = [] →
        o.ok = false ∧ o.iter.batch = [] ∧ o.iter.lastError = some GoError.EOF) ∧
      (r.err = none → r.items ≠ [] →
        o.ok = true ∧ o.iter.batch = r.items ∧ o.iter.lastError = none ∧
          Value o.iter = r.items.head?) := by
  induction k generalizing iter w fuel with
  | zero =>
    simp only [fetchWorld] at hr
    subst hr
    by_cases hre : (f ctx w).1.err = none
    · by_cases hri : (f ctx w).1.items = []
      · have hm : (f ctx w).1.hasMoreItems = false := by
          rcases hdec with h | h | h
          · exact absurd hri h
          · exact h
          · exact absurd hre h
        refine ⟨_, Next_fetch_eof fuel ctx iter w f hf he hb hl hre hri hm, by simp, by simp,
          rfl, rfl, by simp [hm], ?_, ?_, ?_⟩
        · intro h; exact absurd hre h
        · intro _ _; exact ⟨rfl, rfl, rfl⟩
        · intro _ h; exact absurd hri h
      · refine ⟨_, Next_fetch_items fuel ctx iter w f hf he hb hl hre hri, by simp, by simp,
          rfl, rfl, rfl, ?_, ?_, ?_⟩
        · intro h; exact absurd hre h
        · intro _ h; exact absurd h hri
        · intro _ _
          refine ⟨rfl, rfl, rfl, ?_⟩
          cases hits : (f ctx w).1.items with
          | nil => exact absurd hits hri
          | cons x t => simp [Value, hits]
    · refine ⟨_, Next_fetch_err fuel ctx iter w f hf he hb hl hre, by simp, by simp,
        rfl, rfl, rfl, ?_, ?_, ?_⟩
      · intro _; exact ⟨rfl, rfl, rfl⟩
      · intro h; exact absurd h hre
      · intro h; exact absurd h hre
  | succ k ih =>
    have h0 : (f ctx w).1 = emptyMore := hempty 0 (Nat.succ_pos k)
    have h0e : (f ctx w).1.err = none := by rw [h0]; rfl
    have h0i : (f ctx w).1.items = [] := by rw [h0]; rfl
    have h0m : (f ctx w).1.hasMoreItems = true := by rw [h0]; rfl
    obtain ⟨n, rfl⟩ : ∃ n, fuel = n + 1 := ⟨fuel - 1, by omega⟩
    obtain ⟨o, hN, h1, h2, h3, h4, h5, h6, h7, h8⟩ :=
      ih { NextBatchFunc := some f, batch := [], lastError := none, isLastBatch := false }
        (f ctx w).2 rfl rfl (by simp) rfl
        (fun i hi => hempty (i + 1) (Nat.succ_lt_succ hi)) hr n (by omega)
    refine ⟨{ o with fetched := (f ctx w).1 :: o.fetched }, ?_, ?_, ?_, h3, h4, h5, h6, h7, h8⟩
    · rw [Next_fetch_retry_succ n ctx iter w f hf he hb hl h0e h0i h0m, hN]
      rfl
    · simp [h1, h0, List.replicate_succ]
    · simp [h2]

/-- C16: an active iterator holds the batch `x :: t` of a fetch by `f` that
announced more items, with `x` current.  After `NextBatchFunc` is assigned another
function `g`, the next `n ≤ t.length` calls of `Next` return true and step through
the buffered items without fetching.  Once they are used up, the following `Next`
refills from `g` and not from `f`: it is the `Next` of a fresh iterator over `g`; it
invokes `g` on the current closure state; and when `g` answers `k` times
`nil, true, nil` and then a decisive result `r`, it returns (given a budget of `k`
self-calls) having fetched exactly those results of `g`, with the iterator still
over `g` and the outcome `r` gives: true with `r.items` as the batch and their first
item as `Value` when `r` is a non-empty error-free batch, false with the error of
`r` latched, or false with clean exhaustion. -/
theorem reassign_in_flight (fuel : Nat) (ctx : κ) (f g : NextBatchFunction T σ κ) (x : T)
    (t : List T) (w : σ) (n : Nat) (hn : n ≤ t.length) :
    ∃ ro, runCalls fuel (Call.setNextBatchFunc (some g) :: List.replicate n (Call.next ctx))
          { NextBatchFunc := some f, batch := x :: t, lastError := none,
            isLastBatch := false } w = some ro ∧
      ro.returns = List.replicate n true ∧ ro.fetched = [] ∧ ro.world = w ∧
      ro.iter = { NextBatchFunc := some g, batch := (x :: t).drop n, lastError := none,
                  isLastBatch := false } ∧
      Value ro.iter = (x :: t)[n]? ∧
      (n = t.length →
        Next fuel ctx ro.iter ro.world = Next fuel ctx (Iterator.new (some g)) w ∧
        (∀ o, Next fuel ctx ro.iter ro.world = some o →
          o.fetched.head? = some (g ctx w).1) ∧
        ∀ (k : Nat) (r : FetchResult T),
          (∀ i, i < k → (g ctx (fetchWorld g ctx i w)).1 = emptyMore) →
          (g ctx (fetchWorld g ctx k w)).1 = r →
          (r.items ≠ [] ∨ r.hasMoreItems = false ∨ r.err ≠ none) → k ≤ fuel →
          ∃ o, Next fuel ctx ro.iter ro.world = some o ∧
            o.fetched = List.replicate k emptyMore ++ [r] ∧
            o.world = fetchWorld g ctx (k + 1) w ∧
            o.iter.NextBatchFunc = some g ∧ o.iter.isLastBatch = (!r.hasMoreItems) ∧
            (r.err ≠ none → o.ok = false ∧ o.iter.batch = [] ∧ o.iter.lastError = r.err) ∧
            (r.err = none → r.items = [] →
              o.ok = false ∧ o.iter.batch = [] ∧ o.iter.lastError = some GoError.EOF) ∧
            (r.err = none → r.items ≠ [] →
              o.ok = true ∧ o.iter.batch = r.items ∧ o.iter.lastError = none ∧
                Value o.iter = r.items.head?)) := by
  have hR := runCalls_buffered fuel ctx g false w n (x :: t) (by simp; omega)
  refine ⟨_, by simpa [runCalls] using hR, rfl, rfl, rfl, rfl, ?_, ?_⟩
  · have hlt : n < (x :: t).length := by simp; omega
    cases hd : (x :: t).drop n with
    | nil =>
      have := congrArg List.length hd
      simp at this
      omega
    | cons y ys =>
      have h1 : ((x :: t).drop n)[0]? = some y := by rw [hd]; simp
      rw [List.getElem?_drop] at h1
      simp only [Nat.add_zero] at h1
      rw [h1]
      simp [Value]
  · intro hnt
    have hlen : ((x :: t).drop n).length ≤ 1 := by simp; omega
    refine ⟨Next_short_batch fuel ctx g w _ hlen, ?_, ?_⟩
    · intro o ho
      exact Next_first_fetch ctx fuel _ w o ho g rfl rfl hlen rfl
    · intro k r hempty hr hdec hfuel
      obtain ⟨o, hN, h1, _, h3, h4, h5, h6, h7, h8⟩ :=
        Next_refill ctx g k
          ({ NextBatchFunc := some g, batch := (x :: t).drop n, lastError := none,
             isLastBatch := false } : Iterator T σ κ) w rfl rfl hlen rfl hempty r hr hdec
          fuel hfuel
      exact ⟨o, hN, h1, h3, h4, h5, h6, h7, h8⟩

theorem reassign_in_flight_witness :
    2 ≤ ["B", "C"].length ∧
      runCalls 0
          (Call.setNextBatchFunc (some (StaticSlice ["Z"])) :: List.replicate 3 (Call.next ()))
          ({ NextBatchFunc := some scriptFunc, batch := "A" :: ["B", "C"],
             lastError := none, isLastBatch := false } :
            Iterator String (List (FetchResult String)) Unit)
          scriptThreeBatches =
        some { returns := [true, true, true]
               iter := { NextBatchFunc := some (StaticSlice ["Z"]), batch := ["Z"],
                         lastError := none, isLastBatch := true }
               world := scriptThreeBatches
               fetched := [{ items := ["Z"], hasMoreItems := false, err := none }] } ∧
      ∃ ro, runCalls 0
            (Call.setNextBatchFunc (some (StaticSlice ["Z"])) ::
              List.replicate 2 (Call.next ()))
            ({ NextBatchFunc := some scriptFunc, batch := "A" :: ["B", "C"],
               lastError := none, isLastBatch := false } :
              Iterator String (List (FetchResult String)) Unit)
            scriptThreeBatches = some ro ∧
        ro.returns = List.replicate 2 true ∧ ro.fetched = [] ∧
        ro.world = scriptThreeBatches ∧
        ro.iter = { NextBatchFunc := some (StaticSlice ["Z"]),
                    batch := ("A" :: ["B", "C"]).drop 2, lastError := none,
                    isLastBatch := false } ∧
        Value ro.iter = ("A" :: ["B", "C"])[2]? ∧
        (2 = ["B", "C"].length →
          Next 0 () ro.iter ro.world =
            Next 0 () (Iterator.new (some (StaticSlice ["Z"]))) scriptThreeBatches ∧
          (∀ o, Next 0 () ro.iter ro.world = some o →
            o.fetched.head? = some ((StaticSlice ["Z"] :
              NextBatchFunction String (List (FetchResult String)) Unit) ()
                scriptThreeBatches).1) ∧
          ∀ (k : Nat) (r : FetchResult String),
            (∀ i, i < k →
              ((StaticSlice ["Z"] : NextBatchFunction String (List (FetchResult String)) Unit)
                () (fetchWorld (StaticSlice ["Z"]) () i scriptThreeBatches)).1 = emptyMore) →
            ((StaticSlice ["Z"] : NextBatchFunction String (List (FetchResult String)) Unit)
              () (fetchWorld (StaticSlice ["Z"]) () k scriptThreeBatches)).1 = r →
            (r.items ≠ [] ∨ r.hasMoreItems = false ∨ r.err ≠ none) → k ≤ 0 →
            ∃ o, Next 0 () ro.iter ro.world = some o ∧
              o.fetched = List.replicate k emptyMore ++ [r] ∧
              o.world = fetchWorld (StaticSlice ["Z"]) () (k + 1) scriptThreeBatches ∧
              o.iter.NextBatchFunc = some (StaticSlice ["Z"]) ∧
              o.iter.isLastBatch = (!r.hasMoreItems) ∧
              (r.err ≠ none →
                o.ok = false ∧ o.iter.batch = [] ∧ o.iter.lastError = r.err) ∧
              (r.err = none → r.items = [] →
                o.ok = false ∧ o.iter.batch = [] ∧ o.iter.lastError = some GoError.EOF) ∧
              (r.err = none → r.items ≠ [] →
                o.ok = true ∧ o.iter.batch = r.items ∧ o.iter.lastError = none ∧
                  Value o.iter = r.items.head?)) :=
  ⟨by decide, rfl,
    reassign_in_flight 0 () scriptFunc (StaticSlice ["Z"]) "A" ["B", "C"] scriptThreeBatches 2
      (by decide)⟩

end Proofs

end BatchIterator
